import Mathlib

/-!
Verification of the formula-translation engine of the panda-agi dashboard
backend (files `csv_processor.py` and `formula_evaluator.py`).  The Python
functions are shallowly embedded as executable Lean functions over `List Char`
and `String`; loops that are not structurally recursive carry an explicit fuel
argument whose wrapper instantiation is large enough for the executions the
theorems talk about.
-/

namespace PandaAgi

/-- Python `str.strip()` whitespace class restricted to ASCII, which is the
only data the formula engine handles. -/
def isPySpace (c : Char) : Bool :=
  c = ' ' || c = '\t' || c = '\n' || c = '\r' || c = '\x0b' || c = '\x0c'

/-- Python `str.strip()` on a character list: drop whitespace at both ends. -/
def pyStripL (s : List Char) : List Char :=
  ((s.dropWhile isPySpace).reverse.dropWhile isPySpace).reverse

/-- Python `str.strip()` on a string. -/
def pyStrip (s : String) : String :=
  ⟨pyStripL s.data⟩

/-!
## `CSVProcessor._split_function_args`

The Python function folds over the characters of the argument string keeping
the list of finished arguments, the argument being accumulated, the
parenthesis depth and the active quote character; a comma is a separator
exactly when no quote is active and the depth is zero.  The final accumulated
argument is appended only when it is nonempty.
-/

structure SplitSt where
  args : List (List Char)
  cur : List Char
  depth : Int
  quote : Option Char

/-- One step of the `_split_function_args` fold, mirroring the Python
character dispatch. -/
def splitStep (st : SplitSt) (c : Char) : SplitSt :=
  match st.quote with
  | some q =>
      if c = q then { st with cur := st.cur ++ [c], quote := none }
      else { st with cur := st.cur ++ [c] }
  | none =>
      if c = '"' ∨ c = '\'' then { st with cur := st.cur ++ [c], quote := some c }
      else if c = '(' then { st with cur := st.cur ++ [c], depth := st.depth + 1 }
      else if c = ')' then { st with cur := st.cur ++ [c], depth := st.depth - 1 }
      else if c = ',' ∧ st.depth = 0 then { st with args := st.args ++ [st.cur], cur := [] }
      else { st with cur := st.cur ++ [c] }

/-- The `_split_function_args` fold over the whole input. -/
def splitRun (st : SplitSt) (s : List Char) : SplitSt :=
  s.foldl splitStep st

/-- The function `CSVProcessor._split_function_args` on character lists. -/
def splitFunctionArgsL (s : List Char) : List (List Char) :=
  let st := splitRun ⟨[], [], 0, none⟩ s
  if st.cur = [] then st.args else st.args ++ [st.cur]

/-- The function `CSVProcessor._split_function_args`. -/
def splitFunctionArgs (s : String) : List String :=
  (splitFunctionArgsL s.data).map (fun l => ⟨l⟩)

/-- Joining a list of character lists with single comma separators. -/
def joinCommaL : List (List Char) → List Char
  | [] => []
  | [a] => a
  | a :: rest => a ++ ',' :: joinCommaL rest

/-- Joining a list of strings with single comma separators. -/
def joinComma : List String → String
  | [] => ""
  | [a] => a
  | a :: rest => a ++ "," ++ joinComma rest

theorem joinCommaL_cons₂ (a b : List Char) (t : List (List Char)) :
    joinCommaL (a :: b :: t) = a ++ ',' :: joinCommaL (b :: t) := rfl

theorem joinCommaL_snoc : ∀ (xs : List (List Char)) (y : List Char), xs ≠ [] →
    joinCommaL (xs ++ [y]) = joinCommaL xs ++ ',' :: y
  | [], _, h => absurd rfl h
  | [a], _, _ => rfl
  | a :: b :: t, y, _ => by
      have ih := joinCommaL_snoc (b :: t) y (by simp)
      show joinCommaL (a :: b :: (t ++ [y])) = (a ++ ',' :: joinCommaL (b :: t)) ++ ',' :: y
      rw [joinCommaL_cons₂]
      rw [show (b :: (t ++ [y])) = (b :: t) ++ [y] from rfl, ih]
      simp

theorem joinCommaL_last_append : ∀ (xs : List (List Char)) (y z : List Char),
    joinCommaL (xs ++ [y ++ z]) = joinCommaL (xs ++ [y]) ++ z
  | [], y, z => by simp [joinCommaL]
  | [a], y, z => by simp [joinCommaL]
  | a :: b :: t, y, z => by
      have ih := joinCommaL_last_append (b :: t) y z
      show joinCommaL (a :: b :: (t ++ [y ++ z])) = joinCommaL (a :: b :: (t ++ [y])) ++ z
      rw [joinCommaL_cons₂, joinCommaL_cons₂]
      rw [show (b :: (t ++ [y ++ z])) = (b :: t) ++ [y ++ z] from rfl,
          show (b :: (t ++ [y])) = (b :: t) ++ [y] from rfl, ih]
      simp

/-- The fold step either extends the pending argument by the consumed
character, or (for a splitting comma) finishes it. -/
theorem splitStep_cases (st : SplitSt) (c : Char) :
    ((splitStep st c).args = st.args ∧ (splitStep st c).cur = st.cur ++ [c]) ∨
    (c = ',' ∧ (splitStep st c).args = st.args ++ [st.cur] ∧ (splitStep st c).cur = []) := by
  cases hq : st.quote with
  | none =>
      simp only [splitStep, hq]
      split_ifs with h1 h2 h3 h4
      · exact Or.inl ⟨rfl, rfl⟩
      · exact Or.inl ⟨rfl, rfl⟩
      · exact Or.inl ⟨rfl, rfl⟩
      · exact Or.inr ⟨h4.1, rfl, rfl⟩
      · exact Or.inl ⟨rfl, rfl⟩
  | some q =>
      simp only [splitStep, hq]
      split_ifs with h1
      · exact Or.inl ⟨rfl, rfl⟩
      · exact Or.inl ⟨rfl, rfl⟩

/-- One fold step preserves the rejoin invariant: finished arguments plus the
pending argument, joined with commas, extend by exactly the consumed
character. -/
theorem splitStep_join (st : SplitSt) (c : Char) :
    joinCommaL ((splitStep st c).args ++ [(splitStep st c).cur])
      = joinCommaL (st.args ++ [st.cur]) ++ [c] := by
  rcases splitStep_cases st c with ⟨ha, hc⟩ | ⟨hcomma, ha, hc⟩
  · rw [ha, hc]
    exact joinCommaL_last_append st.args st.cur [c]
  · rw [ha, hc]
    rw [joinCommaL_snoc (st.args ++ [st.cur]) [] (by simp)]
    rw [hcomma]

/-- Invariant of the splitting fold over a whole input. -/
theorem splitRun_join (s : List Char) :
    ∀ st : SplitSt,
      joinCommaL ((splitRun st s).args ++ [(splitRun st s).cur])
        = joinCommaL (st.args ++ [st.cur]) ++ s := by
  induction s with
  | nil => intro st; simp [splitRun]
  | cons c cs ih =>
      intro st
      have hstep : splitRun st (c :: cs) = splitRun (splitStep st c) cs := by
        simp [splitRun]
      rw [hstep, ih, splitStep_join]
      simp

/-- The split of the whole input, rejoined, reproduces the input whenever the
scan leaves a nonempty final argument (or produced no argument at all). -/
theorem splitFunctionArgsL_join (s : List Char)
    (h : (splitRun ⟨[], [], 0, none⟩ s).cur ≠ [] ∨
         (splitRun ⟨[], [], 0, none⟩ s).args = []) :
    joinCommaL (splitFunctionArgsL s) = s := by
  have hinv := splitRun_join s ⟨[], [], 0, none⟩
  simp only [joinCommaL, List.nil_append] at hinv
  unfold splitFunctionArgsL
  rcases hcur : (splitRun ⟨[], [], 0, none⟩ s).cur with _ | ⟨c, cs⟩
  · rcases h with h | h
    · exact absurd hcur h
    · rw [hcur, h] at hinv
      simp only [h, hcur, if_pos rfl]
      simpa [joinCommaL] using hinv
  · rw [if_neg (by rw [hcur]; simp)]
    exact hinv

theorem joinComma_map_mk : ∀ l : List (List Char),
    joinComma (l.map (fun x => (⟨x⟩ : String))) = ⟨joinCommaL l⟩
  | [] => rfl
  | [_] => rfl
  | a :: b :: t => by
      have ih := joinComma_map_mk (b :: t)
      show (⟨a⟩ : String) ++ "," ++ joinComma ((b :: t).map _) = ⟨a ++ ',' :: joinCommaL (b :: t)⟩
      rw [ih]
      apply String.ext
      simp [String.data_append]

/-- Claim C4 counterexample: on an input ending in a top-level comma the final
empty argument is dropped, so rejoining the split with commas does not
reproduce the input. -/
theorem split_function_args_join_fails :
    splitFunctionArgs "a," = ["a"] ∧
    joinComma (splitFunctionArgs "a,") ≠ "a," := by
  constructor
  · decide
  · decide

/-- Claim C4 (amended): `_split_function_args` splits only at commas at
parenthesis depth 0 outside quotes, preserving argument whitespace, and
rejoining the returned substrings with single commas reproduces the input
exactly whenever the input does not end at a top-level unquoted comma (that
is, whenever the scan ends with a nonempty pending argument or produced no
argument); the quoted-comma and parenthesised-comma examples split as the
spec states. -/
theorem split_function_args_spec :
    (∀ s : String,
        ((splitRun ⟨[], [], 0, none⟩ s.data).cur ≠ [] ∨
         (splitRun ⟨[], [], 0, none⟩ s.data).args = []) →
        joinComma (splitFunctionArgs s) = s) ∧
    splitFunctionArgs "a,\"b,c\",d" = ["a", "\"b,c\"", "d"] ∧
    splitFunctionArgs "f(1,2),3" = ["f(1,2)", "3"] := by
  refine ⟨?_, by decide, by decide⟩
  intro s h
  unfold splitFunctionArgs
  rw [joinComma_map_mk]
  apply String.ext
  exact splitFunctionArgsL_join s.data h

/-- Witness for the amended claim C4 at the concrete input of the spec. -/
theorem split_function_args_spec_witness :
    joinComma (splitFunctionArgs "f(1,2),3") = "f(1,2),3" :=
  split_function_args_spec.1 "f(1,2),3" (Or.inl (by decide))

/-!
## `CSVProcessor._number_to_letter` and the column mappings

The Python loop prepends `chr(65 + num % 26)` and replaces `num` by
`num // 26 - 1` until that value drops below zero.  `numToLetterF` is the
same computation written as a fueled recursion (the fuel `n + 1` always
suffices because the loop variable strictly decreases); `numberToLetterLoop`
is the loop written literally, with the loop variable as a (possibly
negative) integer.
-/

/-- The character produced by one iteration of the `_number_to_letter`
loop. -/
def letterChar (n : Nat) : Char := Char.ofNat (65 + n % 26)

/-- The loop of `_number_to_letter` as a fueled recursion: the produced character is
appended on the right of the recursive result, which is exactly the loop's
prepending order. -/
def numToLetterF : Nat → Nat → List Char
  | 0, _ => []
  | fuel + 1, n =>
      if n < 26 then [letterChar n]
      else numToLetterF fuel (n / 26 - 1) ++ [letterChar n]

/-- The function `CSVProcessor._number_to_letter`. -/
def number_to_letter (n : Nat) : String := ⟨numToLetterF (n + 1) n⟩

/-- The while loop of `_number_to_letter` written literally: the loop
variable is an integer, Python floor division of the nonnegative loop values
is Nat division, and exhausted fuel gives `none`. -/
def numberToLetterLoop : Nat → Int → List Char → Option (List Char)
  | 0, _, _ => none
  | fuel + 1, num, acc =>
      if num < 0 then some acc
      else numberToLetterLoop fuel (((num.toNat / 26 : Nat) : Int) - 1)
        (letterChar num.toNat :: acc)

theorem numToLetterF_congr : ∀ (n f₁ f₂ : Nat), n < f₁ → n < f₂ →
    numToLetterF f₁ n = numToLetterF f₂ n := by
  intro n
  induction n using Nat.strong_induction_on with
  | _ n ih =>
      intro f₁ f₂ h₁ h₂
      obtain ⟨g₁, rfl⟩ : ∃ g, f₁ = g + 1 := ⟨f₁ - 1, by omega⟩
      obtain ⟨g₂, rfl⟩ : ∃ g, f₂ = g + 1 := ⟨f₂ - 1, by omega⟩
      by_cases h26 : n < 26
      · simp [numToLetterF, h26]
      · have hm : n / 26 - 1 < n := by omega
        simp only [numToLetterF, h26, if_false]
        rw [ih (n / 26 - 1) hm g₁ g₂ (by omega) (by omega)]

theorem numToLetterF_ne_nil (n : Nat) : numToLetterF (n + 1) n ≠ [] := by
  by_cases h26 : n < 26 <;> simp [numToLetterF, h26]

theorem letterChar_range (n : Nat) : 'A' ≤ letterChar n ∧ letterChar n ≤ 'Z' := by
  have h : n % 26 < 26 := Nat.mod_lt n (by omega)
  have : ∀ j, j < 26 → 'A' ≤ Char.ofNat (65 + j) ∧ Char.ofNat (65 + j) ≤ 'Z' := by decide
  exact this (n % 26) h

theorem numToLetterF_chars : ∀ n : Nat, ∀ c ∈ numToLetterF (n + 1) n,
    'A' ≤ c ∧ c ≤ 'Z' := by
  intro n
  induction n using Nat.strong_induction_on with
  | _ n ih =>
      intro c hc
      by_cases h26 : n < 26
      · simp [numToLetterF, h26] at hc
        exact hc ▸ letterChar_range n
      · have hm : n / 26 - 1 < n := by omega
        simp only [numToLetterF, h26, if_false, List.mem_append, List.mem_singleton] at hc
        rcases hc with hc | hc
        · rw [numToLetterF_congr (n / 26 - 1) n (n / 26 - 1 + 1) hm (by omega)] at hc
          exact ih (n / 26 - 1) hm c hc
        · exact hc ▸ letterChar_range n

theorem snoc_inj {α : Type} {A B : List α} {x y : α} (h : A ++ [x] = B ++ [y]) :
    A = B ∧ x = y := by
  have h' := congrArg List.reverse h
  simp only [List.reverse_append, List.reverse_singleton, List.singleton_append,
    List.cons.injEq] at h'
  exact ⟨List.reverse_injective h'.2, h'.1⟩

theorem letterChar_inj {n m : Nat} (h : letterChar n = letterChar m) :
    n % 26 = m % 26 := by
  have hn : n % 26 < 26 := Nat.mod_lt n (by omega)
  have hm : m % 26 < 26 := Nat.mod_lt m (by omega)
  have key : ∀ j, j < 26 → ∀ k, k < 26 →
      Char.ofNat (65 + j) = Char.ofNat (65 + k) → j = k := by decide
  exact key (n % 26) hn (m % 26) hm h

theorem numToLetterF_length_one {n : Nat} (h26 : n < 26) :
    (numToLetterF (n + 1) n).length = 1 := by
  simp [numToLetterF, h26]

theorem numToLetterF_length_big {n : Nat} (h26 : ¬ n < 26) :
    1 < (numToLetterF (n + 1) n).length := by
  simp only [numToLetterF, h26, if_false, List.length_append, List.length_singleton]
  have hm : n / 26 - 1 < n := by omega
  have := numToLetterF_ne_nil (n / 26 - 1)
  rw [numToLetterF_congr (n / 26 - 1) (n / 26 - 1 + 1) n (by omega) hm] at this
  have : 0 < (numToLetterF n (n / 26 - 1)).length := List.length_pos.mpr this
  omega

theorem number_to_letter_inj : ∀ n m : Nat,
    number_to_letter n = number_to_letter m → n = m := by
  intro n
  induction n using Nat.strong_induction_on with
  | _ n ih =>
      intro m h
      have hdata : numToLetterF (n + 1) n = numToLetterF (m + 1) m :=
        congrArg String.data h
      by_cases hn26 : n < 26
      · by_cases hm26 : m < 26
        · simp only [numToLetterF, hn26, hm26, if_true, List.cons.injEq] at hdata
          have := letterChar_inj hdata.1
          omega
        · have h1 := numToLetterF_length_one hn26
          have h2 := numToLetterF_length_big hm26
          rw [hdata] at h1
          omega
      · by_cases hm26 : m < 26
        · have h1 := numToLetterF_length_one hm26
          have h2 := numToLetterF_length_big hn26
          rw [hdata] at h2
          omega
        · simp only [numToLetterF, hn26, hm26, if_false] at hdata
          obtain ⟨hpre, hlast⟩ := snoc_inj hdata
          have hmod := letterChar_inj hlast
          have hnm : n / 26 - 1 < n := by omega
          have hmm : m / 26 - 1 < m := by omega
          rw [numToLetterF_congr (n / 26 - 1) n (n / 26 - 1 + 1) hnm (by omega),
              numToLetterF_congr (m / 26 - 1) m (m / 26 - 1 + 1) hmm (by omega)] at hpre
          have heq : number_to_letter (n / 26 - 1) = number_to_letter (m / 26 - 1) :=
            congrArg String.mk hpre
          have := ih (n / 26 - 1) hnm (m / 26 - 1) heq
          omega

/-- The `_create_column_mappings` letter-to-name entries, starting at index
`i`. -/
def colMappingAux : Nat → List String → List (String × String)
  | _, [] => []
  | i, h :: t => (number_to_letter i, h) :: colMappingAux (i + 1) t

/-- The `_create_column_mappings` name-to-letter entries, starting at index
`i`. -/
def revMappingAux : Nat → List String → List (String × String)
  | _, [] => []
  | i, h :: t => (h, number_to_letter i) :: revMappingAux (i + 1) t

/-- The function `CSVProcessor._create_column_mappings` from the header list. -/
def createColumnMappings (headers : List String) :
    List (String × String) × List (String × String) :=
  (colMappingAux 0 headers, revMappingAux 0 headers)

/-- Python `dict.get` over assignments made in list order: a later
assignment overrides an earlier one with the same key. -/
def pyDictGet : List (String × String) → String → Option String
  | [], _ => none
  | (k, v) :: rest, key =>
      match pyDictGet rest key with
      | some w => some w
      | none => if k = key then some v else none

/-- The function `CSVProcessor.get_column_by_letter`. -/
def get_column_by_letter (column_mapping : List (String × String))
    (letter : String) : Option String :=
  pyDictGet column_mapping letter.toUpper

/-- The function `CSVProcessor.get_letter_by_column`. -/
def get_letter_by_column (reverse_mapping : List (String × String))
    (name : String) : Option String :=
  pyDictGet reverse_mapping name

theorem map_eq_self_of_mem {l : List Char} {f : Char → Char}
    (h : ∀ c ∈ l, f c = c) : l.map f = l := by
  induction l with
  | nil => rfl
  | cons a t ih =>
      simp only [List.map_cons, h a (by simp)]
      rw [ih (fun c hc => h c (by simp [hc]))]

theorem numToLetterF_mem_letterChar : ∀ n : Nat, ∀ c ∈ numToLetterF (n + 1) n,
    ∃ k, c = letterChar k := by
  intro n
  induction n using Nat.strong_induction_on with
  | _ n ih =>
      intro c hc
      by_cases h26 : n < 26
      · simp [numToLetterF, h26] at hc
        exact ⟨n, hc⟩
      · have hm : n / 26 - 1 < n := by omega
        simp only [numToLetterF, h26, if_false, List.mem_append, List.mem_singleton] at hc
        rcases hc with hc | hc
        · rw [numToLetterF_congr (n / 26 - 1) n (n / 26 - 1 + 1) hm (by omega)] at hc
          exact ih (n / 26 - 1) hm c hc
        · exact ⟨n, hc⟩

theorem toUpper_letterChar (n : Nat) : Char.toUpper (letterChar n) = letterChar n := by
  have h : n % 26 < 26 := Nat.mod_lt n (by omega)
  have key : ∀ j, j < 26 → Char.toUpper (Char.ofNat (65 + j)) = Char.ofNat (65 + j) := by
    decide
  exact key (n % 26) h

theorem toUpper_number_to_letter (n : Nat) :
    (number_to_letter n).toUpper = number_to_letter n := by
  show String.map Char.toUpper (number_to_letter n) = number_to_letter n
  rw [String.map_eq]
  apply String.ext
  show (number_to_letter n).data.map Char.toUpper = (number_to_letter n).data
  apply map_eq_self_of_mem
  intro c hc
  obtain ⟨k, rfl⟩ := numToLetterF_mem_letterChar n c hc
  exact toUpper_letterChar k

theorem pyDictGet_colMappingAux_none : ∀ (hs : List String) (i : Nat) (key : String),
    (∀ m, m < hs.length → key ≠ number_to_letter (i + m)) →
    pyDictGet (colMappingAux i hs) key = none := by
  intro hs
  induction hs with
  | nil => intro i key _; rfl
  | cons h t ih =>
      intro i key hkey
      show pyDictGet ((number_to_letter i, h) :: colMappingAux (i + 1) t) key = none
      have htail : pyDictGet (colMappingAux (i + 1) t) key = none := by
        apply ih
        intro m hm
        have := hkey (m + 1) (by simpa using Nat.succ_lt_succ hm)
        simpa [Nat.add_assoc, Nat.add_comm 1 m] using this
      simp only [pyDictGet, htail]
      have := hkey 0 (by simp)
      simp only [Nat.add_zero] at this
      rw [if_neg (fun hcontra => this hcontra.symm)]

theorem pyDictGet_colMappingAux : ∀ (hs : List String) (i n : Nat) (hn : n < hs.length),
    pyDictGet (colMappingAux i hs) (number_to_letter (i + n)) = some (hs.get ⟨n, hn⟩) := by
  intro hs
  induction hs with
  | nil => intro i n hn; simp at hn
  | cons h t ih =>
      intro i n hn
      show pyDictGet ((number_to_letter i, h) :: colMappingAux (i + 1) t) _ = _
      cases n with
      | zero =>
          have htail : pyDictGet (colMappingAux (i + 1) t) (number_to_letter i) = none := by
            apply pyDictGet_colMappingAux_none
            intro m _ hcontra
            have := number_to_letter_inj _ _ hcontra
            omega
          show pyDictGet ((number_to_letter i, h) :: colMappingAux (i + 1) t)
              (number_to_letter i) = some h
          simp only [pyDictGet, htail]
          simp
      | succ m =>
          have htail := ih (i + 1) m (by simpa using Nat.lt_of_succ_lt_succ hn)
          have harg : i + 1 + m = i + (m + 1) := by omega
          rw [harg] at htail
          simp only [pyDictGet, htail]
          rfl

theorem pyDictGet_revMappingAux_none : ∀ (hs : List String) (i : Nat) (key : String),
    key ∉ hs → pyDictGet (revMappingAux i hs) key = none := by
  intro hs
  induction hs with
  | nil => intro i key _; rfl
  | cons h t ih =>
      intro i key hkey
      show pyDictGet ((h, number_to_letter i) :: revMappingAux (i + 1) t) key = none
      have htail : pyDictGet (revMappingAux (i + 1) t) key = none :=
        ih (i + 1) key (fun hmem => hkey (by simp [hmem]))
      simp only [pyDictGet, htail]
      rw [if_neg (fun hcontra => hkey (by simp [hcontra]))]

theorem pyDictGet_revMappingAux : ∀ (hs : List String) (i n : Nat) (hn : n < hs.length),
    hs.Nodup →
    pyDictGet (revMappingAux i hs) (hs.get ⟨n, hn⟩) = some (number_to_letter (i + n)) := by
  intro hs
  induction hs with
  | nil => intro i n hn; simp at hn
  | cons h t ih =>
      intro i n hn hnodup
      show pyDictGet ((h, number_to_letter i) :: revMappingAux (i + 1) t) _ = _
      cases n with
      | zero =>
          have htail : pyDictGet (revMappingAux (i + 1) t) h = none := by
            apply pyDictGet_revMappingAux_none
            exact (List.nodup_cons.mp hnodup).1
          show pyDictGet ((h, number_to_letter i) :: revMappingAux (i + 1) t) h
              = some (number_to_letter i)
          simp only [pyDictGet, htail]
          simp
      | succ m =>
          have hm : m < t.length := by simpa using Nat.lt_of_succ_lt_succ hn
          have htail := ih (i + 1) m hm (List.nodup_cons.mp hnodup).2
          have hget : (h :: t).get ⟨m + 1, hn⟩ = t.get ⟨m, hm⟩ := rfl
          have harg : i + 1 + m = i + (m + 1) := by omega
          rw [harg] at htail
          rw [hget]
          simp only [pyDictGet, htail]

/-- Claim C5: the Excel-style column letter assignment takes the documented
values at 0, 25, 26, 701, and for every index up to 1000, against mappings
built from pairwise-distinct headers of sufficient width, letter-to-name
followed by name-to-letter round-trips to the same letter. -/
theorem number_to_letter_round_trip :
    number_to_letter 0 = "A" ∧ number_to_letter 25 = "Z" ∧
    number_to_letter 26 = "AA" ∧ number_to_letter 701 = "ZZ" ∧
    (∀ n : Nat, n ≤ 1000 → ∀ headers : List String, headers.Nodup →
      n < headers.length →
      (get_column_by_letter (createColumnMappings headers).1 (number_to_letter n)).bind
         (get_letter_by_column (createColumnMappings headers).2)
        = some (number_to_letter n)) := by
  refine ⟨by decide, by decide, by decide, by decide, ?_⟩
  intro n _ headers hnodup hn
  unfold get_column_by_letter get_letter_by_column createColumnMappings
  rw [toUpper_number_to_letter]
  have h1 : pyDictGet (colMappingAux 0 headers) (number_to_letter n)
      = some (headers.get ⟨n, hn⟩) := by
    have := pyDictGet_colMappingAux headers 0 n hn
    simpa using this
  rw [h1]
  have h2 := pyDictGet_revMappingAux headers 0 n hn hnodup
  simpa using h2

/-- Witness for claim C5 at `n = 1` over the two-column header list. -/
theorem number_to_letter_round_trip_witness :
    (get_column_by_letter (createColumnMappings ["age", "name"]).1 (number_to_letter 1)).bind
       (get_letter_by_column (createColumnMappings ["age", "name"]).2)
      = some (number_to_letter 1) :=
  number_to_letter_round_trip.2.2.2.2 1 (by omega) ["age", "name"] (by decide) (by decide)

theorem numberToLetterLoop_eq : ∀ (n : Nat) (acc : List Char) (fuel : Nat),
    n + 1 < fuel →
    numberToLetterLoop fuel (n : Int) acc = some (numToLetterF (n + 1) n ++ acc) := by
  intro n
  induction n using Nat.strong_induction_on with
  | _ n ih =>
      intro acc fuel hfuel
      obtain ⟨g, rfl⟩ : ∃ g, fuel = g + 1 := ⟨fuel - 1, by omega⟩
      have hnot : ¬ ((n : Int) < 0) := by omega
      rw [show numberToLetterLoop (g + 1) (n : Int) acc
          = numberToLetterLoop g (((((n : Int)).toNat / 26 : Nat) : Int) - 1)
              (letterChar ((n : Int)).toNat :: acc) from by
        simp [numberToLetterLoop, hnot]]
      rw [show ((n : Int)).toNat = n from Int.toNat_natCast n]
      by_cases h26 : n < 26
      · have hz : n / 26 = 0 := Nat.div_eq_of_lt h26
        rw [hz]
        have hneg : ((0 : Nat) : Int) - 1 < 0 := by omega
        obtain ⟨g', rfl⟩ : ∃ g', g = g' + 1 := ⟨g - 1, by omega⟩
        rw [show numberToLetterLoop (g' + 1) (((0 : Nat) : Int) - 1)
            (letterChar n :: acc) = some (letterChar n :: acc) from by
          simp [numberToLetterLoop, hneg]]
        simp [numToLetterF, h26]
      · have hm : n / 26 - 1 < n := by omega
        have hcast : (((n / 26 : Nat) : Int)) - 1 = ((n / 26 - 1 : Nat) : Int) := by
          have : 1 ≤ n / 26 := Nat.one_le_div_iff (by omega) |>.mpr (by omega)
          omega
        rw [hcast]
        rw [ih (n / 26 - 1) hm (letterChar n :: acc) g (by omega)]
        have hexp : numToLetterF (n + 1) n
            = numToLetterF n (n / 26 - 1) ++ [letterChar n] := by
          show (if n < 26 then [letterChar n]
              else numToLetterF n (n / 26 - 1) ++ [letterChar n]) = _
          rw [if_neg h26]
        rw [hexp, numToLetterF_congr (n / 26 - 1) n (n / 26 - 1 + 1) hm (by omega)]
        simp

/-- Claim C10: for every natural `n` the `_number_to_letter` loop terminates
(fuel `n + 2` always suffices), producing exactly the string of the
structural computation, and the result is a nonempty string of characters
between A and Z. -/
theorem number_to_letter_terminates :
    ∀ n : Nat, numberToLetterLoop (n + 2) (n : Int) [] = some (number_to_letter n).data ∧
      (number_to_letter n).data ≠ [] ∧
      ∀ c ∈ (number_to_letter n).data, 'A' ≤ c ∧ c ≤ 'Z' := by
  intro n
  refine ⟨?_, numToLetterF_ne_nil n, numToLetterF_chars n⟩
  have := numberToLetterLoop_eq n [] (n + 2) (by omega)
  simpa using this

/-- Witness for claim C10: the loop evaluated at 27 with its membership
hypothesis discharged at the first character of the result. -/
theorem number_to_letter_terminates_witness :
    'A' ≤ 'B' ∧ 'B' ≤ 'Z' :=
  (number_to_letter_terminates 27).2.2 'B' (by decide)

/-!
## The IF/AND/OR statement converters

`_convert_if_statements`, `_convert_and_statements` and
`_convert_or_statements` all share the same shape: find the leftmost
occurrence of the keyword, scan forward counting parentheses to the matching
close, split the span with `_split_function_args`, and either substitute the
converted expression and loop again, or stop and return the current string.
One loop iteration is `convertIfStep` / `convertBoolStep`; the iteration is
`convertLoop` with explicit fuel.  Every successful substitution consumes the
keyword occurrence it processed, so the occurrence count, which is below the
string length, bounds the number of iterations in the executions treated
below; the wrappers therefore run the loop with fuel `length + 1`.
-/

/-- Python `str.find(pat)` restricted to the successful case: index of the leftmost
occurrence of `pat`. -/
def findSubAux (pat : List Char) : List Char → Nat → Option Nat
  | [], i => if pat = [] then some i else none
  | c :: cs, i =>
      if pat.isPrefixOf (c :: cs) then some i else findSubAux pat cs (i + 1)

/-- Index of the leftmost occurrence of `pat` in `s`, if any. -/
def findSub (pat s : List Char) : Option Nat :=
  findSubAux pat s 0

/-- The matching-parenthesis scan of the converters: from index `i`, add one
on an opening parenthesis, subtract one on a closing parenthesis and stop at
the closing parenthesis that brings the count to zero. -/
def findCloseAux : List Char → Nat → Int → Option Nat
  | [], _, _ => none
  | c :: cs, i, count =>
      if c = '(' then findCloseAux cs (i + 1) (count + 1)
      else if c = ')' then
        (if count - 1 = 0 then some i else findCloseAux cs (i + 1) (count - 1))
      else findCloseAux cs (i + 1) count

/-- The matching-parenthesis scan starting at index `start` of `s`. -/
def findClose (s : List Char) (start : Nat) : Option Nat :=
  findCloseAux (s.drop start) start 0

/-- One iteration of the `_convert_if_statements` loop: `none` when the loop
would stop (keyword absent, unmatched parenthesis, or argument count other
than 3), otherwise the string with the leftmost `IF(...)` span replaced by
the ternary expression built from the trimmed arguments. -/
def convertIfStep (s : List Char) : Option (List Char) :=
  match findSub "IF(".data s with
  | none => none
  | some start =>
      match findClose s (start + 2) with
      | none => none
      | some endIdx =>
          match splitFunctionArgsL ((s.take endIdx).drop (start + 3)) with
          | [c, t, f] =>
              some (s.take start ++ '(' :: pyStripL t ++ " if ".data ++ pyStripL c
                    ++ " else ".data ++ pyStripL f ++ [')'] ++ s.drop (endIdx + 1))
          | _ => none

/-- Joining argument lists with a logical-operator separator, as
`" and ".join(...)` and `" or ".join(...)` do. -/
def joinWithOp (op : List Char) : List (List Char) → List Char
  | [] => []
  | [a] => a
  | a :: rest => a ++ op ++ joinWithOp op rest

/-- One iteration of the `_convert_and_statements` and
`_convert_or_statements` loops, for keyword `kw` (with its opening
parenthesis) and operator `op`: `none` when the loop would stop (keyword
absent, unmatched parenthesis, or fewer than 2 arguments). -/
def convertBoolStep (kw op s : List Char) : Option (List Char) :=
  match findSub kw s with
  | none => none
  | some start =>
      match findClose s (start + (kw.length - 1)) with
      | none => none
      | some endIdx =>
          if 2 ≤ (splitFunctionArgsL ((s.take endIdx).drop (start + kw.length))).length then
            some (s.take start ++ '(' :: joinWithOp op
                  ((splitFunctionArgsL ((s.take endIdx).drop (start + kw.length))).map pyStripL)
                  ++ [')'] ++ s.drop (endIdx + 1))
          else none

/-- The converter loops: iterate a step until it stops or fuel runs out. -/
def convertLoop (step : List Char → Option (List Char)) : Nat → List Char → List Char
  | 0, s => s
  | fuel + 1, s =>
      match step s with
      | none => s
      | some s2 => convertLoop step fuel s2

/-- The function `CSVProcessor._convert_if_statements`. -/
def convert_if_statements (s : String) : String :=
  ⟨convertLoop convertIfStep (s.length + 1) s.data⟩

/-- The function `CSVProcessor._convert_and_statements`. -/
def convert_and_statements (s : String) : String :=
  ⟨convertLoop (convertBoolStep "AND(".data " and ".data) (s.length + 1) s.data⟩

/-- The function `CSVProcessor._convert_or_statements`. -/
def convert_or_statements (s : String) : String :=
  ⟨convertLoop (convertBoolStep "OR(".data " or ".data) (s.length + 1) s.data⟩

theorem convertLoop_none {step : List Char → Option (List Char)} {s : List Char}
    (h : step s = none) : ∀ fuel, convertLoop step fuel s = s := by
  intro fuel
  cases fuel with
  | zero => rfl
  | succ f => simp [convertLoop, h]

theorem mk_data (s : String) : (⟨s.data⟩ : String) = s := rfl

/-- Claim C1: whenever the leftmost `IF(` of the formula has a matching
closing parenthesis found by depth counting and its span splits into exactly
3 arguments, one converter iteration replaces that `IF(...)` span by the
ternary expression built from the trimmed arguments and the loop continues on
the result; the nested example formula is fully converted, with no `IF(`
substring remaining in the output. -/
theorem convert_if_statements_spec :
    (∀ (s : List Char) (fuel start endIdx : Nat) (c t f : List Char),
        findSub "IF(".data s = some start →
        findClose s (start + 2) = some endIdx →
        splitFunctionArgsL ((s.take endIdx).drop (start + 3)) = [c, t, f] →
        convertLoop convertIfStep (fuel + 1) s
          = convertLoop convertIfStep fuel
              (s.take start ++ '(' :: pyStripL t ++ " if ".data ++ pyStripL c
               ++ " else ".data ++ pyStripL f ++ [')'] ++ s.drop (endIdx + 1))) ∧
    convert_if_statements "IF(A>1,IF(B>2,\"x\",\"y\"),\"z\")"
      = "((\"x\" if B>2 else \"y\") if A>1 else \"z\")" ∧
    findSub "IF(".data ("((\"x\" if B>2 else \"y\") if A>1 else \"z\")".data)
      = none := by
  refine ⟨?_, by decide, by decide⟩
  intro s fuel start endIdx c t f h1 h2 h3
  show (match convertIfStep s with
        | none => s
        | some s2 => convertLoop convertIfStep fuel s2) = _
  rw [show convertIfStep s
      = some (s.take start ++ '(' :: pyStripL t ++ " if ".data ++ pyStripL c
              ++ " else ".data ++ pyStripL f ++ [')'] ++ s.drop (endIdx + 1)) from by
    simp only [convertIfStep, h1, h2, h3]]

/-- Witness for claim C1: the one-step conversion applied to the concrete
formula `IF(a,b,c)`. -/
theorem convert_if_statements_spec_witness :
    convertLoop convertIfStep 1 "IF(a,b,c)".data
      = convertLoop convertIfStep 0
          (("IF(a,b,c)".data.take 0) ++ '(' :: pyStripL "b".data ++ " if ".data
           ++ pyStripL "a".data ++ " else ".data ++ pyStripL "c".data ++ [')']
           ++ "IF(a,b,c)".data.drop (8 + 1)) :=
  convert_if_statements_spec.1 "IF(a,b,c)".data 0 0 8 "a".data "b".data "c".data
    (by decide) (by decide) (by decide)

theorem convertIfStep_arity_none {s : List Char} {start endIdx : Nat}
    (h1 : findSub "IF(".data s = some start)
    (h2 : findClose s (start + 2) = some endIdx)
    (h3 : (splitFunctionArgsL ((s.take endIdx).drop (start + 3))).length ≠ 3) :
    convertIfStep s = none := by
  simp only [convertIfStep, h1, h2]
  rcases hl : splitFunctionArgsL ((s.take endIdx).drop (start + 3)) with
    _ | ⟨a, _ | ⟨b, _ | ⟨c, _ | ⟨d, r⟩⟩⟩⟩
  · rfl
  · rfl
  · rfl
  · rw [hl] at h3; simp at h3
  · rfl

theorem convertIfStep_noclose_none {s : List Char} {start : Nat}
    (h1 : findSub "IF(".data s = some start)
    (h2 : findClose s (start + 2) = none) :
    convertIfStep s = none := by
  simp only [convertIfStep, h1, h2]

theorem convertBoolStep_arity_none {kw op s : List Char} {start endIdx : Nat}
    (h1 : findSub kw s = some start)
    (h2 : findClose s (start + (kw.length - 1)) = some endIdx)
    (h3 : (splitFunctionArgsL ((s.take endIdx).drop (start + kw.length))).length < 2) :
    convertBoolStep kw op s = none := by
  simp only [convertBoolStep, h1, h2]
  rw [if_neg (by omega)]

theorem convertBoolStep_noclose_none {kw op s : List Char} {start : Nat}
    (h1 : findSub kw s = some start)
    (h2 : findClose s (start + (kw.length - 1)) = none) :
    convertBoolStep kw op s = none := by
  simp only [convertBoolStep, h1, h2]

/-- Claim C7: the IF, AND and OR converters are total functions that leave a
malformed occurrence (wrong argument count, or no matching closing
parenthesis for the leftmost keyword) as-is, returning the input unchanged;
the well-formed `AND(A>1,B<2)` converts, while `AND(x)`, `IF(x)`, `OR(x)` and
the unterminated `AND(a,b` are returned unchanged. -/
theorem converters_skip_malformed :
    (∀ (s : String) (start : Nat),
        findSub "IF(".data s.data = some start →
        (findClose s.data (start + 2) = none → convert_if_statements s = s) ∧
        (∀ endIdx, findClose s.data (start + 2) = some endIdx →
          (splitFunctionArgsL ((s.data.take endIdx).drop (start + 3))).length ≠ 3 →
          convert_if_statements s = s)) ∧
    (∀ (s : String) (start : Nat),
        findSub "AND(".data s.data = some start →
        (findClose s.data (start + 3) = none → convert_and_statements s = s) ∧
        (∀ endIdx, findClose s.data (start + 3) = some endIdx →
          (splitFunctionArgsL ((s.data.take endIdx).drop (start + 4))).length < 2 →
          convert_and_statements s = s)) ∧
    (∀ (s : String) (start : Nat),
        findSub "OR(".data s.data = some start →
        (findClose s.data (start + 2) = none → convert_or_statements s = s) ∧
        (∀ endIdx, findClose s.data (start + 2) = some endIdx →
          (splitFunctionArgsL ((s.data.take endIdx).drop (start + 3))).length < 2 →
          convert_or_statements s = s)) ∧
    convert_and_statements "AND(A>1,B<2)" = "(A>1 and B<2)" ∧
    convert_and_statements "AND(x)" = "AND(x)" ∧
    convert_if_statements "IF(x)" = "IF(x)" ∧
    convert_or_statements "OR(x)" = "OR(x)" ∧
    convert_and_statements "AND(a,b" = "AND(a,b" := by
  refine ⟨?_, ?_, ?_, by decide, by decide, by decide, by decide, by decide⟩
  · intro s start h1
    constructor
    · intro h2
      rw [show convert_if_statements s = ⟨convertLoop convertIfStep (s.length + 1) s.data⟩
          from rfl]
      rw [convertLoop_none (convertIfStep_noclose_none h1 h2)]
    · intro endIdx h2 h3
      rw [show convert_if_statements s = ⟨convertLoop convertIfStep (s.length + 1) s.data⟩
          from rfl]
      rw [convertLoop_none (convertIfStep_arity_none h1 h2 h3)]
  · intro s start h1
    constructor
    · intro h2
      rw [show convert_and_statements s
          = ⟨convertLoop (convertBoolStep "AND(".data " and ".data) (s.length + 1) s.data⟩
          from rfl]
      rw [convertLoop_none (convertBoolStep_noclose_none h1 h2)]
    · intro endIdx h2 h3
      rw [show convert_and_statements s
          = ⟨convertLoop (convertBoolStep "AND(".data " and ".data) (s.length + 1) s.data⟩
          from rfl]
      rw [convertLoop_none (convertBoolStep_arity_none h1 h2 h3)]
  · intro s start h1
    constructor
    · intro h2
      rw [show convert_or_statements s
          = ⟨convertLoop (convertBoolStep "OR(".data " or ".data) (s.length + 1) s.data⟩
          from rfl]
      rw [convertLoop_none (convertBoolStep_noclose_none h1 h2)]
    · intro endIdx h2 h3
      rw [show convert_or_statements s
          = ⟨convertLoop (convertBoolStep "OR(".data " or ".data) (s.length + 1) s.data⟩
          from rfl]
      rw [convertLoop_none (convertBoolStep_arity_none h1 h2 h3)]

/-- Witness for claim C7: the AND converter leaving the one-argument call
`AND(x)` unchanged. -/
theorem converters_skip_malformed_witness :
    convert_and_statements "AND(x)" = "AND(x)" :=
  (converters_skip_malformed.2.1 "AND(x)" 0 (by decide)).2 5 (by decide) (by decide)

/-!
## The reference resolvers

`CSVProcessor._replace_excel_column_refs_for_row` (ROW mode) and
`FormulaEvaluator._replace_column_references` (COLUMN mode) apply, in order,
`re.sub` passes for the named-column-range pattern, the letter-range pattern
and the single-cell pattern (COLUMN mode adds a per-column-name pass).  The
`re.sub` scan is `reSub`: at each position the pattern either matches (the
match handlers below are the Python local `replace_*` functions) and the scan
continues after the match, or the scan moves one character right.  For these
patterns the greedy character-class matching never backtracks productively,
so a match at a position is exactly: maximal character-class runs with the
literal `:` or the digit run where the pattern demands them; in particular
the `(\d*)` group of the named-range pattern is always empty because its
digits are consumed by the greedy identifier group.
-/

/-- Uppercase A-Z, the `[A-Z]` class. -/
def isUpperAZ (c : Char) : Bool := 'A' ≤ c && c ≤ 'Z'

/-- ASCII digit, the `\d` class over the engine's ASCII data. -/
def isDigit09 (c : Char) : Bool := '0' ≤ c && c ≤ '9'

/-- The `[a-zA-Z0-9_]` word class. -/
def isWordCh (c : Char) : Bool :=
  ('a' ≤ c && c ≤ 'z') || isUpperAZ c || isDigit09 c || c = '_'

/-- The `[a-zA-Z_]` class. -/
def isLetterUnd (c : Char) : Bool :=
  ('a' ≤ c && c ≤ 'z') || ('A' ≤ c && c ≤ 'Z') || c = '_'

/-- Whether a list starts with an `[a-zA-Z_]` character. -/
def headIsLetterUnd : List Char → Bool
  | [] => false
  | c :: _ => isLetterUnd c

/-- A value of the current row: pandas cell values as far as the resolver
distinguishes them — an integer (rendered with Python's decimal `str`), a
string, or a missing/NaN entry. -/
inductive CellValue where
  | intVal : Int → CellValue
  | strVal : String → CellValue
  | naVal : CellValue
deriving DecidableEq

/-- ROW-mode rendering of a row value: numbers verbatim, strings in double
quotes, missing/NaN as the literal 0. -/
def renderValue : CellValue → List Char
  | .naVal => "0".data
  | .strVal v => '"' :: v.data ++ ['"']
  | .intVal n => (toString n).data

/-- Lookup of a column value in the current row (`name in row.index` plus
`row[name]`). -/
def rowGet (row : List (String × CellValue)) (name : String) : Option CellValue :=
  (row.find? (fun p => p.1 == name)).map (fun p => p.2)

/-- Match of the named-column-range pattern
`([a-zA-Z_][a-zA-Z0-9_]{1,})(\d*):([a-zA-Z_][a-zA-Z0-9_]{1,})` at the start
of `s`: the two identifier groups and the rest of the string (the `(\d*)`
group is provably empty, see the section comment). -/
def matchCustomAt (s : List Char) : Option (List Char × List Char × List Char) :=
  match s.dropWhile isWordCh with
  | ':' :: r2 =>
      if 2 ≤ (s.takeWhile isWordCh).length ∧ headIsLetterUnd (s.takeWhile isWordCh)
         ∧ 2 ≤ (r2.takeWhile isWordCh).length ∧ headIsLetterUnd (r2.takeWhile isWordCh)
      then some (s.takeWhile isWordCh, r2.takeWhile isWordCh, r2.dropWhile isWordCh)
      else none
  | _ => none

/-- Match of the letter-range pattern `([A-Z]+)(\d*):([A-Z]+)(\d*)` at the
start of `s`: the four groups and the rest of the string. -/
def matchRangeAt (s : List Char) :
    Option (List Char × List Char × List Char × List Char × List Char) :=
  if s.takeWhile isUpperAZ = [] then none
  else
    match (s.dropWhile isUpperAZ).dropWhile isDigit09 with
    | ':' :: r3 =>
        if r3.takeWhile isUpperAZ = [] then none
        else some (s.takeWhile isUpperAZ, (s.dropWhile isUpperAZ).takeWhile isDigit09,
                   r3.takeWhile isUpperAZ, (r3.dropWhile isUpperAZ).takeWhile isDigit09,
                   (r3.dropWhile isUpperAZ).dropWhile isDigit09)
    | _ => none

/-- Match of the single-cell pattern `([A-Z]+)(\d+)` at the start of `s`:
the letter group, the digit group and the rest of the string. -/
def matchCellAt (s : List Char) : Option (List Char × List Char × List Char) :=
  if s.takeWhile isUpperAZ = [] then none
  else if (s.dropWhile isUpperAZ).takeWhile isDigit09 = [] then none
  else some (s.takeWhile isUpperAZ, (s.dropWhile isUpperAZ).takeWhile isDigit09,
             (s.dropWhile isUpperAZ).dropWhile isDigit09)

/-- The `re.sub` scan: try the matcher at each position; on a match emit the
replacement and continue after the matched span, else keep the character.
All matchers used here consume at least one character, so fuel
`length + 1` never runs out. -/
def reSub (m : List Char → Option (List Char × List Char)) :
    Nat → List Char → List Char
  | 0, s => s
  | _, [] => []
  | fuel + 1, c :: cs =>
      match m (c :: cs) with
      | some (repl, rest) => repl ++ reSub m fuel rest
      | none => c :: reSub m fuel cs

/-- The base-name computation shared by both `replace_custom_range`
handlers: the shorter name when one identifier is a prefix of the other
(the equal case of the Python code is subsumed), else no base. -/
def customBase (startName endName : List Char) : Option (List Char) :=
  if startName.isPrefixOf endName ∨ endName.isPrefixOf startName then
    some (if endName.length ≤ startName.length then endName else startName)
  else if startName = endName then some startName
  else none

/-- ROW-mode `replace_custom_range`: resolve the base name against the
current row, else quote it; without a base return the matched text. -/
def replaceCustomRangeRow (row : List (String × CellValue))
    (startName endName : List Char) : List Char :=
  match customBase startName endName with
  | some base =>
      match rowGet row ⟨base⟩ with
      | some v => renderValue v
      | none => '"' :: base ++ ['"']
  | none => startName ++ ':' :: endName

/-- ROW-mode `replace_range`: for a same-letter range, resolve the current
row's value of the mapped column, else quote the letters; cross-letter
ranges return the matched text. -/
def replaceRangeRow (mapping : List (String × String))
    (row : List (String × CellValue)) (L1 D1 L2 D2 : List Char) : List Char :=
  if L1 = L2 then
    match pyDictGet mapping ⟨L1⟩ with
    | some name =>
        if name ≠ "" then
          match rowGet row name with
          | some v => renderValue v
          | none => '"' :: L1 ++ ['"']
        else '"' :: L1 ++ ['"']
    | none => '"' :: L1 ++ ['"']
  else L1 ++ D1 ++ ':' :: L2 ++ D2

/-- ROW-mode `replace_cell`: resolve the current row's value of the mapped
column, ignoring the digit group, else quote the letters. -/
def replaceCellRow (mapping : List (String × String))
    (row : List (String × CellValue)) (L : List Char) : List Char :=
  match pyDictGet mapping ⟨L⟩ with
  | some name =>
      if name ≠ "" then
        match rowGet row name with
        | some v => renderValue v
        | none => '"' :: L ++ ['"']
      else '"' :: L ++ ['"']
  | none => '"' :: L ++ ['"']

/-- ROW-mode custom-range pass matcher. -/
def rowCustomM (row : List (String × CellValue)) (s : List Char) :
    Option (List Char × List Char) :=
  match matchCustomAt s with
  | none => none
  | some (w1, w2, rest) => some (replaceCustomRangeRow row w1 w2, rest)

/-- ROW-mode letter-range pass matcher. -/
def rowRangeM (mapping : List (String × String)) (row : List (String × CellValue))
    (s : List Char) : Option (List Char × List Char) :=
  match matchRangeAt s with
  | none => none
  | some (l1, d1, l2, d2, rest) => some (replaceRangeRow mapping row l1 d1 l2 d2, rest)

/-- ROW-mode single-cell pass matcher. -/
def rowCellM (mapping : List (String × String)) (row : List (String × CellValue))
    (s : List Char) : Option (List Char × List Char) :=
  match matchCellAt s with
  | none => none
  | some (l, _, rest) => some (replaceCellRow mapping row l, rest)

/-- The function `CSVProcessor._replace_excel_column_refs_for_row`: the three `re.sub`
passes in source order. -/
def replace_excel_column_refs_for_row (mapping : List (String × String))
    (row : List (String × CellValue)) (s : String) : String :=
  ⟨reSub (rowCellM mapping row)
    ((reSub (rowRangeM mapping row)
      ((reSub (rowCustomM row) (s.data.length + 1) s.data).length + 1)
      (reSub (rowCustomM row) (s.data.length + 1) s.data)).length + 1)
    (reSub (rowRangeM mapping row)
      ((reSub (rowCustomM row) (s.data.length + 1) s.data).length + 1)
      (reSub (rowCustomM row) (s.data.length + 1) s.data))⟩

/-- COLUMN-mode `replace_custom_range`: emit a `getColumnData` accessor for
the base name, else return the matched text. -/
def replaceCustomRangeCol (startName endName : List Char) : List Char :=
  match customBase startName endName with
  | some base => "getColumnData(\"".data ++ base ++ "\")".data
  | none => startName ++ ':' :: endName

/-- Digit-string value, for the `int(...)` conversions of the resolvers. -/
def digitsToNat (l : List Char) : Nat :=
  l.foldl (fun acc c => 10 * acc + (c.toNat - 48)) 0

/-- COLUMN-mode `replace_range`: for a same-letter range emit
`getColumnData` with the mapped name (defaulting to the letter itself) and,
when the start row is present and not the string 1, with the start row;
cross-letter ranges return the matched text. -/
def replaceRangeCol (mapping : List (String × String))
    (L1 D1 L2 D2 : List Char) : List Char :=
  if L1 = L2 then
    if D1 ≠ [] ∧ D1 ≠ ['1'] then
      "getColumnData(\"".data ++ ((pyDictGet mapping ⟨L1⟩).getD ⟨L1⟩).data
        ++ "\", ".data ++ D1 ++ [')']
    else
      "getColumnData(\"".data ++ ((pyDictGet mapping ⟨L1⟩).getD ⟨L1⟩).data
        ++ "\")".data
  else L1 ++ D1 ++ ':' :: L2 ++ D2

/-- COLUMN-mode `replace_cell`: emit `getCellValue` with the mapped name
(defaulting to the letter itself) and the zero-based row index. -/
def replaceCellCol (mapping : List (String × String)) (L D : List Char) : List Char :=
  "getCellValue(\"".data ++ ((pyDictGet mapping ⟨L⟩).getD ⟨L⟩).data
    ++ "\", ".data ++ (toString ((digitsToNat D : Int) - 1)).data ++ [')']

/-- COLUMN-mode custom-range pass matcher. -/
def colCustomM (s : List Char) : Option (List Char × List Char) :=
  match matchCustomAt s with
  | none => none
  | some (w1, w2, rest) => some (replaceCustomRangeCol w1 w2, rest)

/-- COLUMN-mode letter-range pass matcher. -/
def colRangeM (mapping : List (String × String)) (s : List Char) :
    Option (List Char × List Char) :=
  match matchRangeAt s with
  | none => none
  | some (l1, d1, l2, d2, rest) => some (replaceRangeCol mapping l1 d1 l2 d2, rest)

/-- COLUMN-mode single-cell pass matcher. -/
def colCellM (mapping : List (String × String)) (s : List Char) :
    Option (List Char × List Char) :=
  match matchCellAt s with
  | none => none
  | some (l, d, rest) => some (replaceCellCol mapping l d, rest)

/-- Is there a word character at index `i` (string edges count as
non-word)? -/
def wordAt (s : List Char) (i : Nat) : Bool :=
  match s.get? i with
  | some c => isWordCh c
  | none => false

/-- The character before index `i`, if any. -/
def wordBefore (s : List Char) (i : Nat) : Bool :=
  if i = 0 then false else wordAt s (i - 1)

/-- The `\b` word boundary at index `i`. -/
def boundaryAt (s : List Char) (i : Nat) : Bool :=
  wordBefore s i != wordAt s i

/-- The guarded occurrence test of the per-column-name pass: the name occurs
at `i` between word boundaries, not preceded by `getColumnData("` (the
negative lookbehind) and not followed by `")` (the negative lookahead). -/
def nameMatchAt (s name : List Char) (i : Nat) : Bool :=
  name.isPrefixOf (s.drop i) && boundaryAt s i && boundaryAt s (i + name.length)
    && !(decide (15 ≤ i) && decide ((s.drop (i - 15)).take 15 = "getColumnData(\"".data))
    && !(decide ((s.drop (i + name.length)).take 2 = "\")".data))

/-- The per-column-name `re.sub` scan over positions of `s`. -/
def subNameFrom (s name repl : List Char) : Nat → Nat → List Char
  | 0, _ => []
  | fuel + 1, i =>
      if i < s.length then
        if nameMatchAt s name i then
          repl ++ subNameFrom s name repl fuel (i + name.length)
        else
          match s.get? i with
          | some c => c :: subNameFrom s name repl fuel (i + 1)
          | none => []
      else []

/-- One per-column-name substitution pass of COLUMN mode. -/
def subName (s name : List Char) : List Char :=
  if name = [] then s
  else subNameFrom s name ("getColumnData(\"".data ++ name ++ "\")".data)
    (s.length + 1) 0

/-- The keys of `{v: k for k, v in column_mapping.items()}` in insertion
order: first occurrence kept. -/
def dedupKeepFirstAux (seen : List String) : List String → List String
  | [] => []
  | x :: t =>
      if x ∈ seen then dedupKeepFirstAux seen t
      else x :: dedupKeepFirstAux (x :: seen) t

/-- First-occurrence-kept deduplication, the key order of a Python dict
comprehension. -/
def dedupKeepFirst (l : List String) : List String := dedupKeepFirstAux [] l

/-- The function `FormulaEvaluator._replace_column_references`: the three `re.sub` passes
followed by the per-column-name passes. -/
def replace_column_references (expression : String)
    (mapping : List (String × String)) : String :=
  ⟨(dedupKeepFirst (mapping.map (fun p => p.2))).foldl
    (fun acc nm => subName acc nm.data)
    (reSub (colCellM mapping)
      ((reSub (colRangeM mapping)
        ((reSub colCustomM (expression.data.length + 1) expression.data).length + 1)
        (reSub colCustomM (expression.data.length + 1) expression.data)).length + 1)
      (reSub (colRangeM mapping)
        ((reSub colCustomM (expression.data.length + 1) expression.data).length + 1)
        (reSub colCustomM (expression.data.length + 1) expression.data)))⟩

theorem digit_not_upper {c : Char} (h : isDigit09 c = true) : isUpperAZ c = false := by
  unfold isDigit09 at h
  unfold isUpperAZ
  simp only [Bool.and_eq_true, decide_eq_true_eq] at h
  by_contra hcon
  simp only [Bool.not_eq_false, Bool.and_eq_true, decide_eq_true_eq] at hcon
  exact absurd (le_trans hcon.1 h.2) (by decide)

theorem upper_ne_colon {c : Char} (h : isUpperAZ c = true) : c ≠ ':' := by
  intro hc
  rw [hc] at h
  exact absurd h (by decide)

theorem digit_ne_colon {c : Char} (h : isDigit09 c = true) : c ≠ ':' := by
  intro hc
  rw [hc] at h
  exact absurd h (by decide)

theorem matchCustomAt_none {s : List Char} (h : ':' ∉ s) : matchCustomAt s = none := by
  unfold matchCustomAt
  split
  · next r2 heq =>
      exfalso
      apply h
      have hm : ':' ∈ s.dropWhile isWordCh := by
        rw [heq]; exact List.mem_cons_self _ _
      exact (List.dropWhile_sublist isWordCh).subset hm
  · rfl

theorem matchRangeAt_none {s : List Char} (h : ':' ∉ s) : matchRangeAt s = none := by
  unfold matchRangeAt
  by_cases h1 : s.takeWhile isUpperAZ = []
  · rw [if_pos h1]
  · rw [if_neg h1]
    split
    · next r3 heq =>
        exfalso
        apply h
        have hm : ':' ∈ (s.dropWhile isUpperAZ).dropWhile isDigit09 := by
          rw [heq]; exact List.mem_cons_self _ _
        exact (List.dropWhile_sublist isUpperAZ).subset
          ((List.dropWhile_sublist isDigit09).subset hm)
    · rfl

theorem reSub_id_of_none {m : List Char → Option (List Char × List Char)}
    (hm : ∀ t : List Char, ':' ∉ t → m t = none) :
    ∀ (s : List Char) (fuel : Nat), ':' ∉ s → reSub m fuel s = s := by
  intro s
  induction s with
  | nil =>
      intro fuel _
      cases fuel <;> rfl
  | cons c cs ih =>
      intro fuel hs
      cases fuel with
      | zero => rfl
      | succ f =>
          have hstep : m (c :: cs) = none := hm _ hs
          simp only [reSub, hstep]
          rw [ih f (fun hmem => hs (List.mem_cons_of_mem c hmem))]

theorem takeWhile_append_cons {p : Char → Bool} :
    ∀ (L : List Char) (d : Char) (D' : List Char),
    (∀ x ∈ L, p x = true) → p d = false →
    (L ++ d :: D').takeWhile p = L ∧ (L ++ d :: D').dropWhile p = d :: D' := by
  intro L
  induction L with
  | nil =>
      intro d D' _ hd
      constructor
      · simp [List.takeWhile, hd]
      · simp [List.dropWhile, hd]
  | cons a L' ih =>
      intro d D' hL hd
      have ha : p a = true := hL a (by simp)
      obtain ⟨ht, hdrop⟩ := ih d D' (fun x hx => hL x (by simp [hx])) hd
      constructor
      · simp [List.takeWhile, ha, ht]
      · simp [List.dropWhile, ha, hdrop]

theorem matchCellAt_token {L D : List Char} (hL : L ≠ [])
    (hLu : ∀ c ∈ L, isUpperAZ c = true)
    (hD : D ≠ []) (hDd : ∀ c ∈ D, isDigit09 c = true) :
    matchCellAt (L ++ D) = some (L, D, []) := by
  obtain ⟨d, D', rfl⟩ : ∃ d D', D = d :: D' := by
    cases D with
    | nil => exact absurd rfl hD
    | cons d D' => exact ⟨d, D', rfl⟩
  have hd : isUpperAZ d = false := digit_not_upper (hDd d (by simp))
  obtain ⟨htake, hdrop⟩ := takeWhile_append_cons L d D' hLu hd
  have hDtake : (d :: D').takeWhile isDigit09 = d :: D' :=
    List.takeWhile_eq_self_iff.mpr hDd
  have hDdrop : (d :: D').dropWhile isDigit09 = [] :=
    List.dropWhile_eq_nil_iff.mpr hDd
  unfold matchCellAt
  rw [htake, hdrop, hDtake, hDdrop]
  rw [if_neg hL, if_neg hD]

theorem colon_not_mem_token {L D : List Char} (hLu : ∀ c ∈ L, isUpperAZ c = true)
    (hDd : ∀ c ∈ D, isDigit09 c = true) : ':' ∉ L ++ D := by
  intro hmem
  rcases List.mem_append.mp hmem with hmem | hmem
  · exact upper_ne_colon (hLu _ hmem) rfl
  · exact digit_ne_colon (hDd _ hmem) rfl

theorem reSub_single {m : List Char → Option (List Char × List Char)}
    {s repl : List Char} (hs : s ≠ []) (h : m s = some (repl, [])) :
    reSub m (s.length + 1) s = repl := by
  cases s with
  | nil => exact absurd rfl hs
  | cons c cs =>
      show reSub m (cs.length + 1 + 1) (c :: cs) = repl
      simp only [reSub, h]
      show repl ++ reSub m (cs.length + 1) [] = repl
      simp [reSub]

/-- The ROW resolver applied to a bare single-cell token with uppercase
letters `L` and digits `D`: the custom-range and letter-range passes leave
the token unchanged (no colon), and the cell pass resolves it through
`replace_cell`. -/
theorem rowRefs_token (mapping : List (String × String))
    (row : List (String × CellValue)) (L D : List Char) (hL : L ≠ [])
    (hLu : ∀ c ∈ L, isUpperAZ c = true) (hD : D ≠ [])
    (hDd : ∀ c ∈ D, isDigit09 c = true) :
    replace_excel_column_refs_for_row mapping row ⟨L ++ D⟩
      = ⟨replaceCellRow mapping row L⟩ := by
  have hcolon := colon_not_mem_token hLu hDd
  have hdata : (⟨L ++ D⟩ : String).data = L ++ D := rfl
  unfold replace_excel_column_refs_for_row
  rw [hdata]
  rw [reSub_id_of_none (fun t ht => by unfold rowCustomM; rw [matchCustomAt_none ht])
    (L ++ D) _ hcolon]
  rw [reSub_id_of_none (fun t ht => by unfold rowRangeM; rw [matchRangeAt_none ht])
    (L ++ D) _ hcolon]
  rw [reSub_single (by simp [hL]) (by
    unfold rowCellM
    rw [matchCellAt_token hL hLu hD hDd])]

/-- Claim C2: in ROW mode a single-cell reference with a known column letter
resolves to the current row's value whatever the digit part is — integers
verbatim, strings double-quoted, missing/NaN as the literal 0 — and `A1` and
`A2` both resolve to the same current-row value 5 in the worked example. -/
theorem row_mode_cell_resolution :
    (∀ (mapping : List (String × String)) (row : List (String × CellValue))
        (L D : List Char) (name : String) (v : CellValue),
        L ≠ [] → (∀ c ∈ L, isUpperAZ c = true) →
        D ≠ [] → (∀ c ∈ D, isDigit09 c = true) →
        pyDictGet mapping ⟨L⟩ = some name → name ≠ "" →
        rowGet row name = some v →
        replace_excel_column_refs_for_row mapping row ⟨L ++ D⟩ = ⟨renderValue v⟩) ∧
    (∀ n : Int, renderValue (.intVal n) = (toString n).data) ∧
    (∀ v : String, renderValue (.strVal v) = '"' :: v.data ++ ['"']) ∧
    renderValue .naVal = "0".data ∧
    replace_excel_column_refs_for_row [("A", "age")] [("age", .intVal 5)] "A1" = "5" ∧
    replace_excel_column_refs_for_row [("A", "age")] [("age", .intVal 5)] "A2" = "5" := by
  refine ⟨?_, fun _ => rfl, fun _ => rfl, rfl, by decide, by decide⟩
  intro mapping row L D name v hL hLu hD hDd hlook hname hrow
  rw [rowRefs_token mapping row L D hL hLu hD hDd]
  unfold replaceCellRow
  rw [hlook]
  simp only [hname, ne_eq, not_false_iff, if_true, hrow]

/-- Witness for claim C2 at the token `A7` over the worked example schema
and row. -/
theorem row_mode_cell_resolution_witness :
    replace_excel_column_refs_for_row [("A", "age")] [("age", .intVal 5)]
      ⟨"A".data ++ "7".data⟩ = ⟨renderValue (.intVal 5)⟩ :=
  row_mode_cell_resolution.1 [("A", "age")] [("age", .intVal 5)]
    "A".data "7".data "age" (.intVal 5)
    (by decide) (by decide) (by decide) (by decide) (by decide) (by decide) (by decide)

/-- Claim C3: in COLUMN mode a same-letter range with a known column name
resolves to `getColumnData` with the start row carried through exactly when
it is present and differs from the string 1; cross-letter ranges return the
matched text unchanged; the worked example `A2:A` resolves through the full
pass pipeline to `getColumnData("age", 2)`. -/
theorem column_mode_range_resolution :
    (∀ (mapping : List (String × String)) (L D1 D2 : List Char) (name : String),
        pyDictGet mapping ⟨L⟩ = some name →
        (D1 ≠ [] → D1 ≠ ['1'] →
          replaceRangeCol mapping L D1 L D2
            = "getColumnData(\"".data ++ name.data ++ "\", ".data ++ D1 ++ [')']) ∧
        replaceRangeCol mapping L [] L D2
            = "getColumnData(\"".data ++ name.data ++ "\")".data ∧
        replaceRangeCol mapping L ['1'] L D2
            = "getColumnData(\"".data ++ name.data ++ "\")".data) ∧
    (∀ (mapping : List (String × String)) (L1 D1 L2 D2 : List Char), L1 ≠ L2 →
        replaceRangeCol mapping L1 D1 L2 D2 = L1 ++ D1 ++ ':' :: L2 ++ D2) ∧
    replace_column_references "A2:A" [("A", "age")] = "getColumnData(\"age\", 2)" := by
  refine ⟨?_, ?_, by decide⟩
  · intro mapping L D1 D2 name hlook
    refine ⟨?_, ?_, ?_⟩
    · intro h1 h2
      unfold replaceRangeCol
      rw [if_pos rfl, if_pos ⟨h1, h2⟩, hlook]
      rfl
    · unfold replaceRangeCol
      rw [if_pos rfl, if_neg (by simp), hlook]
      rfl
    · unfold replaceRangeCol
      rw [if_pos rfl, if_neg (by simp), hlook]
      rfl
  · intro mapping L1 D1 L2 D2 hne
    unfold replaceRangeCol
    rw [if_neg hne]

/-- Witness for claim C3: the range handler at `B3:B` with schema
letter B mapped to name x. -/
theorem column_mode_range_resolution_witness :
    replaceRangeCol [("B", "x")] "B".data "3".data "B".data []
      = "getColumnData(\"".data ++ "x".data ++ "\", ".data ++ "3".data ++ [')'] :=
  ((column_mode_range_resolution.1 [("B", "x")] "B".data "3".data [] "x"
    (by decide)).1) (by decide) (by decide)

/-- Claim C8 counterexample: on the syntactically valid reference `A1` with
an empty schema, COLUMN mode emits an accessor call with the letter as column
name, and ROW mode emits only the quoted letter — neither emits the raw
token `A1` as a quoted string literal. -/
theorem resolution_miss_not_raw_token :
    replace_column_references "A1" [] = "getCellValue(\"A\", 0)" ∧
    replace_column_references "A1" [] ≠ "\"A1\"" ∧
    replace_excel_column_refs_for_row [] [] "A1" = "\"A\"" ∧
    replace_excel_column_refs_for_row [] [] "A1" ≠ "\"A1\"" := by
  refine ⟨by decide, by decide, by decide, by decide⟩

/-- Claim C8 (amended): on a resolution miss neither resolver raises or
emits an empty string; ROW mode falls back to a double-quoted string — the
column letters for cell and letter-range references (digits and range
punctuation dropped), the base name for named ranges — while COLUMN mode
substitutes the unknown letter itself as the column name inside the emitted
accessor call. -/
theorem resolution_miss_fallback :
    (∀ (mapping : List (String × String)) (row : List (String × CellValue))
        (L D : List Char),
        L ≠ [] → (∀ c ∈ L, isUpperAZ c = true) →
        D ≠ [] → (∀ c ∈ D, isDigit09 c = true) →
        pyDictGet mapping ⟨L⟩ = none →
        replace_excel_column_refs_for_row mapping row ⟨L ++ D⟩
          = ⟨'"' :: L ++ ['"']⟩) ∧
    (∀ (mapping : List (String × String)) (row : List (String × CellValue))
        (L : List Char) (name : String),
        pyDictGet mapping ⟨L⟩ = some name → name ≠ "" → rowGet row name = none →
        replaceCellRow mapping row L = '"' :: L ++ ['"']) ∧
    (∀ (mapping : List (String × String)) (row : List (String × CellValue))
        (L D1 D2 : List Char),
        pyDictGet mapping ⟨L⟩ = none →
        replaceRangeRow mapping row L D1 L D2 = '"' :: L ++ ['"']) ∧
    (∀ (row : List (String × CellValue)) (w1 w2 base : List Char),
        customBase w1 w2 = some base → rowGet row ⟨base⟩ = none →
        replaceCustomRangeRow row w1 w2 = '"' :: base ++ ['"']) ∧
    (∀ (mapping : List (String × String)) (L D : List Char),
        pyDictGet mapping ⟨L⟩ = none →
        replaceCellCol mapping L D
          = "getCellValue(\"".data ++ L ++ "\", ".data
            ++ (toString ((digitsToNat D : Int) - 1)).data ++ [')']) ∧
    (∀ (mapping : List (String × String)) (L D2 : List Char),
        pyDictGet mapping ⟨L⟩ = none →
        replaceRangeCol mapping L [] L D2
          = "getColumnData(\"".data ++ L ++ "\")".data) := by
  refine ⟨?_, ?_, ?_, ?_, ?_, ?_⟩
  · intro mapping row L D hL hLu hD hDd hlook
    rw [rowRefs_token mapping row L D hL hLu hD hDd]
    unfold replaceCellRow
    rw [hlook]
  · intro mapping row L name hlook hname hrow
    unfold replaceCellRow
    rw [hlook]
    simp only [hname, ne_eq, not_false_iff, if_true, hrow]
  · intro mapping row L D1 D2 hlook
    unfold replaceRangeRow
    rw [if_pos rfl, hlook]
  · intro row w1 w2 base hbase hrow
    simp only [replaceCustomRangeRow, hbase, hrow]
  · intro mapping L D hlook
    unfold replaceCellCol
    rw [hlook]
    rfl
  · intro mapping L D2 hlook
    unfold replaceRangeCol
    rw [if_pos rfl, if_neg (by simp), hlook]
    rfl

/-- Witness for the amended claim C8: the ROW resolver on the unknown
reference `Q7` over an empty schema. -/
theorem resolution_miss_fallback_witness :
    replace_excel_column_refs_for_row [] [] ⟨"Q".data ++ "7".data⟩
      = ⟨'"' :: "Q".data ++ ['"']⟩ :=
  resolution_miss_fallback.1 [] [] "Q".data "7".data
    (by decide) (by decide) (by decide) (by decide) (by decide)

/-!
## `CSVProcessor.excel_time`

The function converts its three parameters with `int(...)` guarded by
Python truthiness and a stripped-string check, assigning the first
positional parameter to minutes, the second to seconds and the third to
hours, and returns `hours + minutes/60 + seconds/3600`; any conversion
failure makes the whole call return 0.  A Python value reaching the
function is an integer or a string; a missing third argument is the default
0, i.e. `pyInt 0`.
-/

inductive PyVal where
  | pyInt : Int → PyVal
  | pyStr : String → PyVal
deriving DecidableEq

/-- Python truthiness of the modelled values. -/
def pyTruthy : PyVal → Bool
  | .pyInt n => n ≠ 0
  | .pyStr s => s ≠ ""

/-- Python `str(...)` of the modelled values. -/
def pyValStr : PyVal → String
  | .pyInt n => toString n
  | .pyStr s => s

/-- Digit-run parsing of Python `int(...)`: at least one digit, with single
underscores allowed between digits. -/
def parseIntDigitsAux (acc : Nat) : List Char → Option Nat
  | [] => some acc
  | '_' :: c :: cs =>
      if isDigit09 c then parseIntDigitsAux (10 * acc + (c.toNat - 48)) cs else none
  | c :: cs =>
      if isDigit09 c then parseIntDigitsAux (10 * acc + (c.toNat - 48)) cs else none

/-- Digit-run parsing entry: the first character must be a digit. -/
def parseIntDigits : List Char → Option Nat
  | [] => none
  | c :: cs => if isDigit09 c then parseIntDigitsAux (c.toNat - 48) cs else none

/-- Python `int(...)` applied to a string: surrounding whitespace allowed,
optional sign, then a digit run. -/
def pyIntParse (s : String) : Option Int :=
  match pyStripL s.data with
  | '+' :: rest => (parseIntDigits rest).map (fun n => (n : Int))
  | '-' :: rest => (parseIntDigits rest).map (fun n => -(n : Int))
  | rest => (parseIntDigits rest).map (fun n => (n : Int))

/-- Python `int(...)` on a modelled value. -/
def pyIntOf : PyVal → Option Int
  | .pyInt n => some n
  | .pyStr s => pyIntParse s

/-- One parameter conversion of `excel_time`: the guarded
`int(x) if x and str(x).strip() else 0`, with `none` for the
`ValueError` case. -/
def excelTimeConv (x : PyVal) : Option Int :=
  if pyTruthy x ∧ pyStrip (pyValStr x) ≠ "" then pyIntOf x else some 0

/-- The function `CSVProcessor.excel_time`: the first parameter is converted to
`actual_minutes`, the second to `actual_seconds`, the third to
`actual_hours`, and the result is `hours + minutes/60 + seconds/3600`;
a conversion failure yields 0. -/
def excel_time (hours minutes seconds : PyVal) : ℚ :=
  match excelTimeConv hours, excelTimeConv minutes, excelTimeConv seconds with
  | some m, some s, some h => (h : ℚ) + (m : ℚ) / 60 + (s : ℚ) / 3600
  | _, _, _ => 0

theorem digitChar_digit {k : Nat} (h : k < 10) : isDigit09 (Nat.digitChar k) = true := by
  have key : ∀ j, j < 10 → isDigit09 (Nat.digitChar j) = true := by decide
  exact key k h

theorem toDigitsCore_expand (f n : Nat) (acc : List Char) :
    Nat.toDigitsCore 10 (f + 1) n acc
      = if n / 10 = 0 then Nat.digitChar (n % 10) :: acc
        else Nat.toDigitsCore 10 f (n / 10) (Nat.digitChar (n % 10) :: acc) := rfl

theorem toDigitsCore_mem :
    ∀ (f n : Nat) (acc : List Char), ∀ c ∈ Nat.toDigitsCore 10 f n acc,
      c ∈ acc ∨ isDigit09 c = true := by
  intro f
  induction f with
  | zero => intro n acc c hc; exact Or.inl hc
  | succ f ih =>
      intro n acc c hc
      rw [toDigitsCore_expand] at hc
      by_cases hdiv : n / 10 = 0
      · rw [if_pos hdiv] at hc
        rcases List.mem_cons.mp hc with hc | hc
        · exact Or.inr (hc ▸ digitChar_digit (Nat.mod_lt n (by omega)))
        · exact Or.inl hc
      · rw [if_neg hdiv] at hc
        rcases ih (n / 10) (Nat.digitChar (n % 10) :: acc) c hc with hc | hc
        · rcases List.mem_cons.mp hc with hc | hc
          · exact Or.inr (hc ▸ digitChar_digit (Nat.mod_lt n (by omega)))
          · exact Or.inl hc
        · exact Or.inr hc

theorem toDigitsCore_ne_nil :
    ∀ (f n : Nat) (acc : List Char), acc ≠ [] ∨ 0 < f →
      Nat.toDigitsCore 10 f n acc ≠ [] := by
  intro f
  induction f with
  | zero =>
      intro n acc h
      rcases h with h | h
      · exact h
      · omega
  | succ f ih =>
      intro n acc _
      rw [toDigitsCore_expand]
      by_cases hdiv : n / 10 = 0
      · rw [if_pos hdiv]; simp
      · rw [if_neg hdiv]
        exact ih (n / 10) (Nat.digitChar (n % 10) :: acc) (Or.inl (by simp))

theorem natRepr_ne_nil (n : Nat) : (Nat.repr n).data ≠ [] :=
  toDigitsCore_ne_nil (n + 1) n [] (Or.inr (by omega))

theorem natRepr_digits (n : Nat) : ∀ c ∈ (Nat.repr n).data, isDigit09 c = true := by
  intro c hc
  rcases toDigitsCore_mem (n + 1) n [] c hc with hc | hc
  · exact absurd hc (List.not_mem_nil c)
  · exact hc

theorem digit_not_space {c : Char} (h : isDigit09 c = true) : isPySpace c = false := by
  unfold isDigit09 at h
  simp only [Bool.and_eq_true, decide_eq_true_eq] at h
  by_contra hcon
  simp only [Bool.not_eq_false] at hcon
  unfold isPySpace at hcon
  simp only [Bool.or_eq_true, decide_eq_true_eq] at hcon
  rcases hcon with ((((h1 | h1) | h1) | h1) | h1) | h1 <;>
    (subst h1; exact absurd h (by decide))

theorem pyStripL_eq_self {l : List Char} (h : ∀ c ∈ l, isPySpace c = false) :
    pyStripL l = l := by
  unfold pyStripL
  have h1 : l.dropWhile isPySpace = l := by
    cases l with
    | nil => rfl
    | cons c t =>
        rw [List.dropWhile_cons, if_neg (by rw [h c (by simp)]; simp)]
  rw [h1]
  have h2 : l.reverse.dropWhile isPySpace = l.reverse := by
    cases hrev : l.reverse with
    | nil => rfl
    | cons c t =>
        have hc : c ∈ l := by
          rw [← List.mem_reverse, hrev]; simp
        rw [List.dropWhile_cons, if_neg (by rw [h c hc]; simp)]
  rw [h2, List.reverse_reverse]

theorem pyStrip_intToString_ne (n : Int) : pyStrip (toString n) ≠ "" := by
  have key : ∀ l : List Char, l ≠ [] → (∀ c ∈ l, isPySpace c = false) →
      pyStrip ⟨l⟩ ≠ "" := by
    intro l hl hns heq
    have : pyStripL l = [] := congrArg String.data heq
    rw [pyStripL_eq_self hns] at this
    exact hl this
  cases n with
  | ofNat m =>
      have : toString (Int.ofNat m) = ⟨(Nat.repr m).data⟩ := rfl
      rw [this]
      exact key _ (natRepr_ne_nil m) (fun c hc => digit_not_space (natRepr_digits m c hc))
  | negSucc m =>
      have : toString (Int.negSucc m) = ⟨'-' :: (Nat.repr (m + 1)).data⟩ := by
        show Int.repr (Int.negSucc m) = _
        unfold Int.repr
        apply String.ext
        simp [String.data_append]
      rw [this]
      apply key
      · simp
      · intro c hc
        rcases List.mem_cons.mp hc with hc | hc
        · subst hc; decide
        · exact digit_not_space (natRepr_digits (m + 1) c hc)

theorem excelTimeConv_int (n : Int) : excelTimeConv (.pyInt n) = some n := by
  unfold excelTimeConv
  by_cases hn : n = 0
  · subst hn
    rw [if_neg (by simp [pyTruthy])]
  · rw [if_pos ⟨by simp [pyTruthy, hn], by
      show pyStrip (pyValStr (.pyInt n)) ≠ ""
      exact pyStrip_intToString_ne n⟩]
    rfl

theorem pyIntParse_strip_ne {s : String} {a : Int} (h : pyIntParse s = some a) :
    pyStrip s ≠ "" ∧ s ≠ "" := by
  have hstrip : pyStripL s.data ≠ [] := by
    intro hnil
    unfold pyIntParse at h
    rw [hnil] at h
    simp [parseIntDigits] at h
  constructor
  · intro heq
    exact hstrip (congrArg String.data heq)
  · intro heq
    apply hstrip
    rw [heq]
    rfl

theorem excelTimeConv_parsed {s : String} {a : Int} (h : pyIntParse s = some a) :
    excelTimeConv (.pyStr s) = some a := by
  obtain ⟨h1, h2⟩ := pyIntParse_strip_ne h
  unfold excelTimeConv
  rw [if_pos ⟨by simp [pyTruthy, h2], h1⟩]
  exact h

/-- Claim C9: `excel_time(a, b, c)` equals `c + a/60 + b/3600` — first
positional argument as minutes, second as seconds, third as hours — for
integer arguments and for string arguments parseable as integers; an empty
string argument behaves like the integer 0 (and the missing third argument
defaults to 0); an unparseable nonblank string in any position makes the
whole call return 0. -/
theorem excel_time_argument_order :
    (∀ a b c : Int, excel_time (.pyInt a) (.pyInt b) (.pyInt c)
        = (c : ℚ) + (a : ℚ) / 60 + (b : ℚ) / 3600) ∧
    (∀ (sa sb sc : String) (a b c : Int),
        pyIntParse sa = some a → pyIntParse sb = some b → pyIntParse sc = some c →
        excel_time (.pyStr sa) (.pyStr sb) (.pyStr sc)
          = (c : ℚ) + (a : ℚ) / 60 + (b : ℚ) / 3600) ∧
    (∀ y z : PyVal,
        excel_time (.pyStr "") y z = excel_time (.pyInt 0) y z ∧
        excel_time y (.pyStr "") z = excel_time y (.pyInt 0) z ∧
        excel_time y z (.pyStr "") = excel_time y z (.pyInt 0)) ∧
    (∀ (s : String) (y z : PyVal), pyStrip s ≠ "" → pyIntParse s = none →
        excel_time (.pyStr s) y z = 0 ∧ excel_time y (.pyStr s) z = 0 ∧
        excel_time y z (.pyStr s) = 0) := by
  have hempty : excelTimeConv (.pyStr "") = some 0 := by
    unfold excelTimeConv
    rw [if_neg (by simp [pyTruthy])]
  refine ⟨?_, ?_, ?_, ?_⟩
  · intro a b c
    unfold excel_time
    rw [excelTimeConv_int, excelTimeConv_int, excelTimeConv_int]
  · intro sa sb sc a b c ha hb hc
    unfold excel_time
    rw [excelTimeConv_parsed ha, excelTimeConv_parsed hb, excelTimeConv_parsed hc]
  · intro y z
    refine ⟨?_, ?_, ?_⟩ <;>
      (unfold excel_time; rw [hempty, excelTimeConv_int])
  · intro s y z hs hnone
    have hconv : excelTimeConv (.pyStr s) = none := by
      have hsne : s ≠ "" := by
        intro heq
        apply hs
        rw [heq]
        rfl
      unfold excelTimeConv
      rw [if_pos ⟨by simp [pyTruthy, hsne], hs⟩]
      exact hnone
    refine ⟨?_, ?_, ?_⟩
    · unfold excel_time
      rw [hconv]
    · unfold excel_time
      rw [hconv]
      cases excelTimeConv y <;> rfl
    · unfold excel_time
      rw [hconv]
      cases excelTimeConv y <;> cases excelTimeConv z <;> rfl

/-- Witness for claim C9: `excel_time("90", "30", "1")` giving
`1 + 90/60 + 30/3600` hours. -/
theorem excel_time_argument_order_witness :
    excel_time (.pyStr "90") (.pyStr "30") (.pyStr "1")
      = ((1 : Int) : ℚ) + ((90 : Int) : ℚ) / 60 + ((30 : Int) : ℚ) / 3600 :=
  excel_time_argument_order.2.1 "90" "30" "1" 90 30 1
    (by decide) (by decide) (by decide)

/-!
## `CSVProcessor.excel_text`

The function strips the value and the format code (the latter also of
surrounding double quotes), tries `datetime.strptime` over the fixed format
list, dispatches a recognized date format code, otherwise tries `float` and
dispatches a recognized numeric format code, and otherwise returns the
stripped value.  `strptime` is modelled with CPython's field alternations
(`%Y` exactly 4 digits; `%m`, `%d`, `%H`, `%M`, `%S` one or two digits within
their ranges, two digits preferred) and `datetime`'s calendar validation.
`float` is modelled over the rationals; the special values inf/nan, which the
rationals cannot carry, are recognized by `pyFloatParseable` and the theorems
below never constrain inputs whose float parse is non-finite.
-/

inductive DField where
  | fy : DField
  | fm : DField
  | fd : DField
deriving DecidableEq

structure DateFmt where
  f1 : DField
  f2 : DField
  f3 : DField
  sep : Char
  withTime : Bool

structure PyDate where
  year : Nat
  month : Nat
  day : Nat
deriving DecidableEq

/-- The `%Y` field: exactly four digits. -/
def parseY : List Char → Option (Nat × List Char)
  | a :: b :: c :: d :: rest =>
      if isDigit09 a && isDigit09 b && isDigit09 c && isDigit09 d then
        some (1000 * (a.toNat - 48) + 100 * (b.toNat - 48)
              + 10 * (c.toNat - 48) + (d.toNat - 48), rest)
      else none
  | _ => none

/-- The CPython alternation shape of `%m`, `%d`, `%H`, `%M`, `%S`: a valid
two-digit value in `[minTwo, maxTwo]` is preferred, else a single digit at
least `minOne`. -/
def parse2or1 (maxTwo minTwo minOne : Nat) : List Char → Option (Nat × List Char)
  | a :: b :: rest =>
      if isDigit09 a && isDigit09 b
         && decide (minTwo ≤ 10 * (a.toNat - 48) + (b.toNat - 48))
         && decide (10 * (a.toNat - 48) + (b.toNat - 48) ≤ maxTwo) then
        some (10 * (a.toNat - 48) + (b.toNat - 48), rest)
      else if isDigit09 a && decide (minOne ≤ a.toNat - 48) then
        some (a.toNat - 48, b :: rest)
      else none
  | [a] =>
      if isDigit09 a && decide (minOne ≤ a.toNat - 48) then some (a.toNat - 48, [])
      else none
  | [] => none

/-- Field dispatch of the `strptime` model. -/
def parseField : DField → List Char → Option (Nat × List Char)
  | .fy, s => parseY s
  | .fm, s => parse2or1 12 1 1 s
  | .fd, s => parse2or1 31 1 1 s

/-- The `%H:%M:%S` tail of the datetime formats. -/
def parseTime (s : List Char) : Option (Nat × Nat × Nat × List Char) :=
  match parse2or1 23 0 0 s with
  | none => none
  | some (h, r1) =>
      match r1 with
      | ':' :: r2 =>
          match parse2or1 59 0 0 r2 with
          | none => none
          | some (mi, r3) =>
              match r3 with
              | ':' :: r4 =>
                  match parse2or1 61 0 0 r4 with
                  | none => none
                  | some (se, r5) => some (h, mi, se, r5)
              | _ => none
      | _ => none

/-- Gregorian leap year, as `datetime` validates days. -/
def isLeap (y : Nat) : Bool :=
  (y % 4 = 0 && y % 100 ≠ 0) || y % 400 = 0

/-- Days of a month, as `datetime` validates days. -/
def daysInMonth (y m : Nat) : Nat :=
  if m = 2 then (if isLeap y then 29 else 28)
  else if m = 4 ∨ m = 6 ∨ m = 9 ∨ m = 11 then 30
  else 31

/-- The value of the field named `t` among the three parsed fields. -/
def pickField (t f1 : DField) (v1 : Nat) (f2 : DField) (v2 : Nat)
    (v3 : Nat) : Nat :=
  if f1 = t then v1 else if f2 = t then v2 else v3

/-- The `datetime(year, month, day)` validation. -/
def mkValidDate (y m d : Nat) : Option PyDate :=
  if 1 ≤ y ∧ y ≤ 9999 ∧ 1 ≤ m ∧ m ≤ 12 ∧ 1 ≤ d ∧ d ≤ daysInMonth y m then
    some ⟨y, m, d⟩
  else none

/-- Python `datetime.strptime(s, fmt)` for the three-field formats of the list,
requiring the whole string to be consumed. -/
def tryParseDate (fmt : DateFmt) (s : List Char) : Option PyDate :=
  match parseField fmt.f1 s with
  | none => none
  | some (v1, r1) =>
      match r1 with
      | c1 :: r2 =>
          if c1 = fmt.sep then
            match parseField fmt.f2 r2 with
            | none => none
            | some (v2, r3) =>
                match r3 with
                | c2 :: r4 =>
                    if c2 = fmt.sep then
                      match parseField fmt.f3 r4 with
                      | none => none
                      | some (v3, r5) =>
                          if fmt.withTime then
                            match r5 with
                            | ' ' :: r6 =>
                                match parseTime r6 with
                                | some (_, _, se, r7) =>
                                    if r7 = [] ∧ se ≤ 59 then
                                      mkValidDate
                                        (pickField .fy fmt.f1 v1 fmt.f2 v2 v3)
                                        (pickField .fm fmt.f1 v1 fmt.f2 v2 v3)
                                        (pickField .fd fmt.f1 v1 fmt.f2 v2 v3)
                                    else none
                                | none => none
                            | _ => none
                          else if r5 = [] then
                            mkValidDate
                              (pickField .fy fmt.f1 v1 fmt.f2 v2 v3)
                              (pickField .fm fmt.f1 v1 fmt.f2 v2 v3)
                              (pickField .fd fmt.f1 v1 fmt.f2 v2 v3)
                          else none
                    else none
                | [] => none
          else none
      | [] => none

/-- The `date_formats` list of `excel_text`, in source order (with its
duplicates). -/
def excelDateFormats : List DateFmt :=
  [⟨.fy, .fm, .fd, '-', false⟩,
   ⟨.fm, .fd, .fy, '/', false⟩,
   ⟨.fd, .fm, .fy, '/', false⟩,
   ⟨.fy, .fm, .fd, '-', true⟩,
   ⟨.fm, .fd, .fy, '/', true⟩,
   ⟨.fd, .fm, .fy, '/', true⟩,
   ⟨.fy, .fm, .fd, '/', false⟩,
   ⟨.fd, .fm, .fy, '-', false⟩,
   ⟨.fy, .fm, .fd, '.', false⟩,
   ⟨.fm, .fd, .fy, '.', false⟩,
   ⟨.fd, .fm, .fy, '.', false⟩,
   ⟨.fd, .fm, .fy, '.', false⟩,
   ⟨.fd, .fm, .fy, '-', false⟩]

/-- First format of the list that parses, as the `for`/`try` loop does. -/
def tryFormats : List DateFmt → List Char → Option PyDate
  | [], _ => none
  | f :: fs, s =>
      match tryParseDate f s with
      | some d => some d
      | none => tryFormats fs s

/-- The date parse attempt of `excel_text` over the whole format list. -/
def parseDateAny (s : List Char) : Option PyDate :=
  tryFormats excelDateFormats s

/-- A digit run with single underscores allowed between digits, returning
value, digit count and rest; underscores not followed by a digit are left
unconsumed so that surrounding syntax checks fail, as `float` does. -/
def parseUDigitsAux (acc cnt : Nat) : List Char → Nat × Nat × List Char
  | [] => (acc, cnt, [])
  | '_' :: c :: cs =>
      if isDigit09 c then parseUDigitsAux (10 * acc + (c.toNat - 48)) (cnt + 1) cs
      else (acc, cnt, '_' :: c :: cs)
  | c :: cs =>
      if isDigit09 c then parseUDigitsAux (10 * acc + (c.toNat - 48)) (cnt + 1) cs
      else (acc, cnt, c :: cs)

/-- A nonempty digit run (underscores allowed inside). -/
def parseUDigits : List Char → Option (Nat × Nat × List Char)
  | [] => none
  | c :: cs =>
      if isDigit09 c then some (parseUDigitsAux (c.toNat - 48) 1 cs)
      else none

/-- The optional exponent part of a `float` literal; `none` marks a syntax
error, `some (e, rest)` the signed exponent. -/
def parseExpOpt : List Char → Option (Int × List Char)
  | [] => some (0, [])
  | c :: cs =>
      if c = 'e' ∨ c = 'E' then
        match cs with
        | '+' :: cs2 =>
            match parseUDigits cs2 with
            | some (e, _, rest) => some ((e : Int), rest)
            | none => none
        | '-' :: cs2 =>
            match parseUDigits cs2 with
            | some (e, _, rest) => some (-(e : Int), rest)
            | none => none
        | cs2 =>
            match parseUDigits cs2 with
            | some (e, _, rest) => some ((e : Int), rest)
            | none => none
      else some (0, c :: cs)

/-- An exact rational carried as an integer numerator over a positive
power-of-ten-shaped denominator; Mathlib rationals are avoided only because
their normalized arithmetic does not reduce inside the kernel.  The value
denoted is `num / den`. -/
structure PyQ where
  num : Int
  den : Nat

/-- Scaling by a signed power of ten. -/
def tenPow (q : PyQ) (e : Int) : PyQ :=
  if 0 ≤ e then ⟨q.num * ((10 : Nat) ^ e.toNat : Nat), q.den⟩
  else ⟨q.num, q.den * 10 ^ (-e).toNat⟩

/-- The body of a finite `float` literal after sign removal: digits with
optional fraction, or fraction alone, with an optional exponent; the whole
string must be consumed. -/
def pyFloatBody (l : List Char) : Option PyQ :=
  match l with
  | '.' :: r1 =>
      match parseUDigits r1 with
      | none => none
      | some (f, k, r2) =>
          match parseExpOpt r2 with
          | some (e, []) => some (tenPow ⟨(f : Int), 10 ^ k⟩ e)
          | _ => none
  | _ =>
      match parseUDigits l with
      | none => none
      | some (n, _, r1) =>
          match r1 with
          | '.' :: r2 =>
              match r2 with
              | [] => some ⟨(n : Int), 1⟩
              | _ =>
                  match parseUDigits r2 with
                  | some (f, k, r3) =>
                      match parseExpOpt r3 with
                      | some (e, []) =>
                          some (tenPow ⟨(n : Int) * ((10 : Nat) ^ k : Nat) + (f : Int), 10 ^ k⟩ e)
                      | _ => none
                  | none =>
                      match parseExpOpt r2 with
                      | some (e, []) => some (tenPow ⟨(n : Int), 1⟩ e)
                      | _ => none
          | _ =>
              match parseExpOpt r1 with
              | some (e, []) => some (tenPow ⟨(n : Int), 1⟩ e)
              | _ => none

/-- Sign removal of a `float` literal. -/
def signSplit (l : List Char) : Bool × List Char :=
  match l with
  | '+' :: r => (false, r)
  | '-' :: r => (true, r)
  | r => (false, r)

/-- Python `float(...)` restricted to finite results, over the exact
rational model. -/
def pyFloatFinite (s : String) : Option PyQ :=
  (pyFloatBody (signSplit (pyStripL s.data)).2).map
    (fun q => if (signSplit (pyStripL s.data)).1 then ⟨-q.num, q.den⟩ else q)

/-- An `inf`, `infinity` or `nan` spelling, case-insensitive. -/
def isInfNanBody (l : List Char) : Bool :=
  l.map Char.toLower = "inf".data || l.map Char.toLower = "infinity".data
    || l.map Char.toLower = "nan".data

/-- Whether Python `float(...)` succeeds at all (finite or not). -/
def pyFloatParseable (s : String) : Bool :=
  (pyFloatBody (signSplit (pyStripL s.data)).2).isSome
    || isInfNanBody (signSplit (pyStripL s.data)).2

/-- Python `int(float)` truncation toward zero on the rational model. -/
def ratTrunc (q : PyQ) : Int := q.num.tdiv (q.den : Int)

/-- Round half to even, the rounding of Python fixed-point formatting: the
floor of the value, plus one when the fractional part exceeds one half or
ties away from an even floor. -/
def roundHalfEven (x : PyQ) : Int :=
  if 2 * (x.num - x.num.fdiv (x.den : Int) * (x.den : Int)) < (x.den : Int) then
    x.num.fdiv (x.den : Int)
  else if (x.den : Int) < 2 * (x.num - x.num.fdiv (x.den : Int) * (x.den : Int)) then
    x.num.fdiv (x.den : Int) + 1
  else if x.num.fdiv (x.den : Int) % 2 = 0 then x.num.fdiv (x.den : Int)
  else x.num.fdiv (x.den : Int) + 1

/-- Left zero padding to width `n`. -/
def padZeros (s : String) (n : Nat) : String :=
  if s.length < n then ⟨List.replicate (n - s.length) '0'⟩ ++ s else s

/-- Python `f"{q:.Nf}"` on the rational model. -/
def formatFixed (q : PyQ) (n : Nat) : String :=
  (if q.num < 0 then "-" else "")
    ++ toString ((roundHalfEven (tenPow q (n : Int))).natAbs / 10 ^ n)
    ++ (if n = 0 then ""
        else "." ++ padZeros (toString ((roundHalfEven (tenPow q (n : Int))).natAbs % 10 ^ n)) n)

/-- Thousands grouping over a reversed digit list. -/
def groupRev : List Char → Nat → List Char
  | [], _ => []
  | c :: cs, i =>
      if i ≠ 0 ∧ i % 3 = 0 then ',' :: c :: groupRev cs (i + 1)
      else c :: groupRev cs (i + 1)

/-- Thousands grouping of a digit string. -/
def groupThousands (l : List Char) : List Char :=
  (groupRev l.reverse 0).reverse

/-- Python `f"{q:,.Nf}"` on the rational model. -/
def formatComma (q : PyQ) (n : Nat) : String :=
  (if q.num < 0 then "-" else "")
    ++ ⟨groupThousands (toString ((roundHalfEven (tenPow q (n : Int))).natAbs / 10 ^ n)).data⟩
    ++ (if n = 0 then ""
        else "." ++ padZeros (toString ((roundHalfEven (tenPow q (n : Int))).natAbs % 10 ^ n)) n)

/-- Two-digit zero padding, for `:02d`. -/
def pad2 (n : Nat) : String := if n < 10 then "0" ++ toString n else toString n

/-- The month abbreviation table of `excel_text`. -/
def monthsAbbr : List String :=
  ["Jan", "Feb", "Mar", "Apr", "May", "Jun", "Jul", "Aug", "Sep", "Oct", "Nov", "Dec"]

/-- The full month name table of `excel_text`. -/
def monthsFull : List String :=
  ["January", "February", "March", "April", "May", "June", "July", "August",
   "September", "October", "November", "December"]

/-- The `months[month - 1]` lookup. -/
def monthName (table : List String) (m : Nat) : String :=
  table.getD (m - 1) ""

/-- Python `str.lower()` on the engine's data, written as a structural map
so that it evaluates inside the kernel. -/
def pyLower (s : String) : String := ⟨s.data.map Char.toLower⟩

/-- The date-format-code dispatch of `excel_text`, on the lowered format
string; `none` when no date branch matches and control falls through to the
numeric branches. -/
def dateFormatResult (d : PyDate) (fmtLower : String) : Option String :=
  if fmtLower == "mmm yyyy" || fmtLower == "mmm-yyyy" then
    some (monthName monthsAbbr d.month ++ " " ++ toString d.year)
  else if fmtLower == "mmmm yyyy" || fmtLower == "mmmm-yyyy" then
    some (monthName monthsFull d.month ++ " " ++ toString d.year)
  else if fmtLower == "mm/yyyy" || fmtLower == "mm-yyyy" then
    some (pad2 d.month ++ "/" ++ toString d.year)
  else if fmtLower == "yyyy-mm" || fmtLower == "yyyy/mm" then
    some (toString d.year ++ "-" ++ pad2 d.month)
  else if fmtLower == "yyyy-mm-dd" then
    some (toString d.year ++ "-" ++ pad2 d.month ++ "-" ++ pad2 d.day)
  else if fmtLower == "mm/dd/yyyy" then
    some (pad2 d.month ++ "/" ++ pad2 d.day ++ "/" ++ toString d.year)
  else if fmtLower == "dd/mm/yyyy" then
    some (pad2 d.day ++ "/" ++ pad2 d.month ++ "/" ++ toString d.year)
  else if fmtLower == "mmm" || fmtLower == "mon" then
    some (monthName monthsAbbr d.month)
  else if fmtLower == "mmmm" || fmtLower == "month" then
    some (monthName monthsFull d.month)
  else if fmtLower == "yyyy" || fmtLower == "year" then
    some (toString d.year)
  else if fmtLower == "mm" || fmtLower == "month_num" then
    some (pad2 d.month)
  else if fmtLower == "dd" || fmtLower == "day" then
    some (pad2 d.day)
  else none

/-- The `^[#0,]+$` comma pattern test. -/
def isCommaPattern (l : List Char) : Bool :=
  !l.isEmpty && l.all (fun c => c = '#' || c = '0' || c = ',')

/-- The `^[#0,]+\.[#0]+$` comma-with-decimals pattern test. -/
def isCommaDecPattern (l : List Char) : Bool :=
  !(l.takeWhile (fun c => c ≠ '.')).isEmpty
    && (l.takeWhile (fun c => c ≠ '.')).all (fun c => c = '#' || c = '0' || c = ',')
    && !((l.dropWhile (fun c => c ≠ '.')).drop 1).isEmpty
    && ((l.dropWhile (fun c => c ≠ '.')).drop 1).all (fun c => c = '#' || c = '0')
    && ((l.dropWhile (fun c => c ≠ '.')).drop 1).all (fun c => c ≠ '.')

/-- Python `len(format_str.split(".")[1])`, under the comma-with-decimals
pattern. -/
def decCount (l : List Char) : Nat :=
  ((l.dropWhile (fun c => c ≠ '.')).drop 1).length

/-- The numeric-format-code dispatch of `excel_text`; the fixed codes are
compared on the lowered format string, the two comma patterns on the
original, as in the source. -/
def numFormatResult (q : PyQ) (fmtStr : String) : Option String :=
  if pyLower fmtStr == "0" || pyLower fmtStr == "#" then
    some (toString (ratTrunc q))
  else if pyLower fmtStr == "0.0" || pyLower fmtStr == "#.#" then
    some (formatFixed q 1)
  else if pyLower fmtStr == "0.00" || pyLower fmtStr == "#.##" then
    some (formatFixed q 2)
  else if pyLower fmtStr == "0%" || pyLower fmtStr == "#%" then
    some (formatFixed ⟨q.num * 100, q.den⟩ 0 ++ "%")
  else if pyLower fmtStr == "0.0%" || pyLower fmtStr == "#.#%" then
    some (formatFixed ⟨q.num * 100, q.den⟩ 1 ++ "%")
  else if pyLower fmtStr == "0.00%" || pyLower fmtStr == "#.##%" then
    some (formatFixed ⟨q.num * 100, q.den⟩ 2 ++ "%")
  else if pyLower fmtStr == "$0" || pyLower fmtStr == "$#" then
    some ("$" ++ formatFixed q 0)
  else if pyLower fmtStr == "$0.00" || pyLower fmtStr == "$#.##" then
    some ("$" ++ formatFixed q 2)
  else if isCommaPattern fmtStr.data then
    some (formatComma q 0)
  else if isCommaDecPattern fmtStr.data then
    some (formatComma q (decCount fmtStr.data))
  else none

/-- Python `str.strip` of double quotes: all leading and trailing double quotes removed. -/
def stripQuoteChars (s : String) : String :=
  ⟨((s.data.dropWhile (fun c => c = '"')).reverse.dropWhile (fun c => c = '"')).reverse⟩

/-- The date format codes recognized by `dateFormatResult`, grouped as its
branch conditions are. -/
def dateCodeB (fmtLower : String) : Bool :=
  (fmtLower == "mmm yyyy" || fmtLower == "mmm-yyyy")
    || (fmtLower == "mmmm yyyy" || fmtLower == "mmmm-yyyy")
    || (fmtLower == "mm/yyyy" || fmtLower == "mm-yyyy")
    || (fmtLower == "yyyy-mm" || fmtLower == "yyyy/mm")
    || (fmtLower == "yyyy-mm-dd")
    || (fmtLower == "mm/dd/yyyy")
    || (fmtLower == "dd/mm/yyyy")
    || (fmtLower == "mmm" || fmtLower == "mon")
    || (fmtLower == "mmmm" || fmtLower == "month")
    || (fmtLower == "yyyy" || fmtLower == "year")
    || (fmtLower == "mm" || fmtLower == "month_num")
    || (fmtLower == "dd" || fmtLower == "day")

/-- The numeric format codes recognized by `numFormatResult`, grouped as its
branch conditions are. -/
def numCodeB (fmtStr : String) : Bool :=
  (pyLower fmtStr == "0" || pyLower fmtStr == "#")
    || (pyLower fmtStr == "0.0" || pyLower fmtStr == "#.#")
    || (pyLower fmtStr == "0.00" || pyLower fmtStr == "#.##")
    || (pyLower fmtStr == "0%" || pyLower fmtStr == "#%")
    || (pyLower fmtStr == "0.0%" || pyLower fmtStr == "#.#%")
    || (pyLower fmtStr == "0.00%" || pyLower fmtStr == "#.##%")
    || (pyLower fmtStr == "$0" || pyLower fmtStr == "$#")
    || (pyLower fmtStr == "$0.00" || pyLower fmtStr == "$#.##")
    || isCommaPattern fmtStr.data || isCommaDecPattern fmtStr.data

/-- A format code with any effect at all in `excel_text`. -/
def recognizedFormat (fmtStr : String) : Bool :=
  dateCodeB (pyLower fmtStr) || numCodeB fmtStr

/-- The fall-through after the date branches of `excel_text`: numeric
dispatch if the value is a finite float, else the stripped value. -/
def excelTextTail (valueStr fmtStr : String) : String :=
  match pyFloatFinite valueStr with
  | some q =>
      match numFormatResult q fmtStr with
      | some out => out
      | none => valueStr
  | none => valueStr

/-- The function `CSVProcessor.excel_text` on string values. -/
def excel_text (value format_code : String) : String :=
  match parseDateAny (pyStrip value).data with
  | some d =>
      match dateFormatResult d (pyLower (stripQuoteChars (pyStrip format_code))) with
      | some out => out
      | none => excelTextTail (pyStrip value) (stripQuoteChars (pyStrip format_code))
  | none => excelTextTail (pyStrip value) (stripQuoteChars (pyStrip format_code))

theorem dateFormatResult_none {d : PyDate} {f : String} (h : dateCodeB f = false) :
    dateFormatResult d f = none := by
  unfold dateCodeB at h
  obtain ⟨h, g12⟩ := Bool.or_eq_false_iff.mp h
  obtain ⟨h, g11⟩ := Bool.or_eq_false_iff.mp h
  obtain ⟨h, g10⟩ := Bool.or_eq_false_iff.mp h
  obtain ⟨h, g9⟩ := Bool.or_eq_false_iff.mp h
  obtain ⟨h, g8⟩ := Bool.or_eq_false_iff.mp h
  obtain ⟨h, g7⟩ := Bool.or_eq_false_iff.mp h
  obtain ⟨h, g6⟩ := Bool.or_eq_false_iff.mp h
  obtain ⟨h, g5⟩ := Bool.or_eq_false_iff.mp h
  obtain ⟨h, g4⟩ := Bool.or_eq_false_iff.mp h
  obtain ⟨h, g3⟩ := Bool.or_eq_false_iff.mp h
  obtain ⟨g1, g2⟩ := Bool.or_eq_false_iff.mp h
  unfold dateFormatResult
  simp only [g1, g2, g3, g4, g5, g6, g7, g8, g9, g10, g11, g12, Bool.false_eq_true,
    if_false]

theorem numFormatResult_none {q : PyQ} {f : String} (h : numCodeB f = false) :
    numFormatResult q f = none := by
  unfold numCodeB at h
  obtain ⟨h, g10⟩ := Bool.or_eq_false_iff.mp h
  obtain ⟨h, g9⟩ := Bool.or_eq_false_iff.mp h
  obtain ⟨h, g8⟩ := Bool.or_eq_false_iff.mp h
  obtain ⟨h, g7⟩ := Bool.or_eq_false_iff.mp h
  obtain ⟨h, g6⟩ := Bool.or_eq_false_iff.mp h
  obtain ⟨h, g5⟩ := Bool.or_eq_false_iff.mp h
  obtain ⟨h, g4⟩ := Bool.or_eq_false_iff.mp h
  obtain ⟨h, g3⟩ := Bool.or_eq_false_iff.mp h
  obtain ⟨g1, g2⟩ := Bool.or_eq_false_iff.mp h
  unfold numFormatResult
  simp only [g1, g2, g3, g4, g5, g6, g7, g8, g9, g10, Bool.false_eq_true,
    if_false]

theorem pyFloatFinite_none_of {s : String} (h : pyFloatParseable s = false) :
    pyFloatFinite s = none := by
  unfold pyFloatParseable at h
  obtain ⟨h1, _⟩ := Bool.or_eq_false_iff.mp h
  have hbody : pyFloatBody (signSplit (pyStripL s.data)).2 = none := by
    cases hb : pyFloatBody (signSplit (pyStripL s.data)).2 with
    | none => rfl
    | some q => rw [hb] at h1; simp at h1
  unfold pyFloatFinite
  rw [hbody]
  rfl

theorem excelTextTail_noparse {v f : String} (h : pyFloatFinite v = none) :
    excelTextTail v f = v := by
  unfold excelTextTail
  rw [h]

theorem excelTextTail_unrecognized {v f : String} (hn : numCodeB f = false) :
    excelTextTail v f = v := by
  cases hq : pyFloatFinite v with
  | none => simp only [excelTextTail, hq]
  | some q => simp only [excelTextTail, hq, numFormatResult_none hn]

/-- Claim C6 counterexample: the format code 0 truncates via `int(...)`, so
`excel_text("1234.5", "0")` is 1234, not the rounded 1235 the claim
states. -/
theorem excel_text_zero_truncates :
    excel_text "1234.5" "0" = "1234" ∧ excel_text "1234.5" "0" ≠ "1235" := by
  exact ⟨by decide, by decide⟩

/-- Claim C6 (amended): the TEXT formatting function matches the fixed
table with `excel_text("1234.5", "0") = "1234"` (the codes 0 and # truncate
toward zero rather than round), and any value that parses as neither a
supported date nor a finite number, or any unrecognized format code, returns
the stripped original value unchanged. -/
theorem excel_text_spec :
    excel_text "2024-03-15" "mmm yyyy" = "Mar 2024" ∧
    excel_text "1234.5" "0.00" = "1234.50" ∧
    excel_text "1234.5" "0" = "1234" ∧
    excel_text "not-a-date-or-number" "yyyy" = "not-a-date-or-number" ∧
    (∀ value fmt : String,
        parseDateAny (pyStrip value).data = none →
        pyFloatParseable (pyStrip value) = false →
        excel_text value fmt = pyStrip value) ∧
    (∀ value fmt : String,
        recognizedFormat (stripQuoteChars (pyStrip fmt)) = false →
        excel_text value fmt = pyStrip value) := by
  refine ⟨by decide, by decide, by decide, by decide, ?_, ?_⟩
  · intro value fmt hdate hfloat
    unfold excel_text
    rw [hdate]
    exact excelTextTail_noparse (pyFloatFinite_none_of hfloat)
  · intro value fmt h
    obtain ⟨hd, hn⟩ := Bool.or_eq_false_iff.mp
      (by simpa [recognizedFormat] using h)
    unfold excel_text
    cases hdate : parseDateAny (pyStrip value).data with
    | none => exact excelTextTail_unrecognized hn
    | some d =>
        simp only [dateFormatResult_none hd]
        exact excelTextTail_unrecognized hn

/-- Witness for the amended claim C6: a value that is neither a date nor a
number is returned as its stripped string. -/
theorem excel_text_spec_witness :
    excel_text "hello world" "mmm yyyy" = pyStrip "hello world" :=
  excel_text_spec.2.2.2.2.1 "hello world" "mmm yyyy" (by decide) (by decide)

end PandaAgi
